import Mathlib

/-!
WebSocket server (epoll): frame codec, handshake processor and event loop

A shallow embedding of `src/WebSocketServer.cpp`.

* A `std::string` and a `std::vector<uint8_t>` are both lists of byte values
  (`List Nat`, every element meant to be below 256).
* `size_t` and `uint64_t` arithmetic is arithmetic on `Nat` reduced modulo `2 ^ 64`
  at the places where the source computes in those types.
* A function that indexes a buffer returns an `Option`: `none` stands for an access
  outside the buffer (undefined behaviour in C++), `some r` for a normal return of `r`.
-/

set_option linter.unusedVariables false
set_option linter.unnecessarySeqFocus false

namespace WebSocketServer

/-! ## Frame codec -/

/-- The loop `for (int i = 7; i >= 0; i--) frame.push_back((msg_len >> (i * 8)) & 0xFF)`
of `create_websocket_frame`; the first argument is the number of iterations still to run,
so the loop variable of the next iteration is that number minus one. -/
def push_length_bytes (msg_len : Nat) : Nat → List Nat → List Nat
  | 0, frame => frame
  | i + 1, frame => push_length_bytes msg_len i (frame ++ [(msg_len >>> (i * 8)) &&& 0xFF])

/-- Source: `WebSocketServer::create_websocket_frame` (WebSocketServer.cpp, 318-349). -/
def create_websocket_frame (message : List Nat) : List Nat :=
  let msg_len := message.length % 2 ^ 64
  let frame : List Nat := [0x81]
  let frame :=
    if msg_len < 126 then
      frame ++ [msg_len % 256]
    else if msg_len < 65536 then
      frame ++ [126] ++ [(msg_len >>> 8) &&& 0xFF] ++ [msg_len &&& 0xFF]
    else
      push_length_bytes msg_len 8 (frame ++ [127])
  frame ++ message

/-- The loop `for (int i = 0; i < 8; i++) payload_len = (payload_len << 8) | data[2 + i]`
of `decode_websocket_frame`, on a `uint64_t` accumulator; the first argument is the number
of iterations still to run. -/
def read_length64 (data : List Nat) : Nat → Nat → Nat → Option Nat
  | 0, _, payload_len => some payload_len
  | n + 1, i, payload_len =>
    (data[2 + i]?).bind fun d =>
      read_length64 data n (i + 1) (((payload_len <<< 8) % 2 ^ 64) ||| d)

/-- The loop `for (uint64_t i = 0; i < payload_len; i++)
payload += static_cast<char>(data[header_len + i] ^ mask[i % 4])`; the first argument is
`payload_len - i`, the number of iterations still to run.  Reading `data` at an index that
is not below `data.size()` yields `none`. -/
def unmask_loop (data mask : List Nat) (header_len : Nat) : Nat → Nat → List Nat → Option (List Nat)
  | 0, _, payload => some payload
  | n + 1, i, payload =>
    (data[(header_len + i) % 2 ^ 64]?).bind fun d =>
      unmask_loop data mask header_len n (i + 1) (payload ++ [(d ^^^ mask.getD (i % 4) 0) % 256])

/-- The second half of `decode_websocket_frame` (WebSocketServer.cpp, 382-404), entered with
the payload length and header length found by the first half.  The size check adds
`header_len + payload_len` in 64-bit unsigned arithmetic.  The iterator range given to
`payload.assign` is a valid range exactly when it lies inside the buffer. -/
def decode_payload (data : List Nat) (masked : Bool) (payload_len header_len : Nat) :
    Option (List Nat) :=
  let header_len := if masked then header_len + 4 else header_len
  if data.length < (header_len + payload_len) % 2 ^ 64 then
    some []
  else if masked then
    (data[header_len - 4]?).bind fun m0 =>
    (data[header_len - 3]?).bind fun m1 =>
    (data[header_len - 2]?).bind fun m2 =>
    (data[header_len - 1]?).bind fun m3 =>
      unmask_loop data [m0, m1, m2, m3] header_len payload_len 0 []
  else if header_len + payload_len ≤ data.length then
    some ((data.drop header_len).take payload_len)
  else
    none

/-- Source: `WebSocketServer::decode_websocket_frame` (WebSocketServer.cpp, 351-405).
The source returns the empty string both for "need more data" and for an empty payload;
that is `some []` here. -/
def decode_websocket_frame (data : List Nat) : Option (List Nat) :=
  if data.length < 2 then
    some []
  else
    (data[0]?).bind fun d0 =>
    (data[1]?).bind fun d1 =>
      let fin := (d0 &&& 0x80) != 0
      let opcode := d0 &&& 0x0F
      let masked := (d1 &&& 0x80) != 0
      let payload_len := d1 &&& 0x7F
      if payload_len = 126 then
        if data.length < 4 then
          some []
        else
          (data[2]?).bind fun d2 =>
          (data[3]?).bind fun d3 =>
            decode_payload data masked ((d2 <<< 8) ||| d3) 4
      else if payload_len = 127 then
        if data.length < 10 then
          some []
        else
          (read_length64 data 8 0 0).bind fun payload_len =>
            decode_payload data masked payload_len 10
      else
        decode_payload data masked payload_len 2


open WebSocketServer

/-- The `k` low-order bytes of `n`, most significant first. -/
def bigEndian : Nat → Nat → List Nat
  | 0, _ => []
  | k + 1, n => (n / 256 ^ k % 256) :: bigEndian k n

/-- The number a list of bytes denotes when read most significant byte first. -/
def fromBigEndian (bs : List Nat) : Nat :=
  bs.foldl (fun acc b => acc * 256 + b) 0

/-- The length field of an unmasked frame as the specification words it: the single byte `n`
below 126, the marker 126 and two big-endian bytes below 65536, the marker 127 and eight
big-endian bytes from there on. -/
def length_field (n : Nat) : List Nat :=
  if n < 126 then [n]
  else if n < 65536 then 126 :: bigEndian 2 n
  else 127 :: bigEndian 8 n

/-- The masked payload the specification describes: byte `j` of `p` is XOR-ed with
`key[(i + j) mod 4]`, where `i` is the offset of the first byte of `p`. -/
def xor_mask (key : List Nat) : Nat → List Nat → List Nat
  | _, [] => []
  | i, b :: bs => (b ^^^ key.getD (i % 4) 0) :: xor_mask key (i + 1) bs

/-- The length field of a masked frame: that of `length_field` with the mask bit `0x80`
set in its first byte. -/
def masked_length_field (n : Nat) : List Nat :=
  if n < 126 then [0x80 + n]
  else if n < 65536 then 0xFE :: bigEndian 2 n
  else 0xFF :: bigEndian 8 n

/-- A complete client-to-server text frame with mask key `key` and payload `p`, as the
specification describes it. -/
def client_frame (key p : List Nat) : List Nat :=
  0x81 :: (masked_length_field p.length ++ key ++ xor_mask key 0 p)

/-! ## Handshake processor -/

/-- The bytes of a string literal of the source; every literal used is plain ASCII. -/
def str (s : String) : List Nat := s.toList.map Char.toNat

/-- One call `std::getline(iss, line)` on a stream whose unread input is `input`: it fails
(`none`) when nothing is left, and otherwise yields the characters before the next `'\n'`
(or up to the end of input) as the line and leaves what follows that `'\n'` unread. -/
def getline (input : List Nat) : Option (List Nat × List Nat) :=
  match input with
  | [] => none
  | c :: cs => some ((c :: cs).takeWhile (· ≠ 10), ((c :: cs).dropWhile (· ≠ 10)).drop 1)

/-- Model of `std::string::find(const char*)`: the first position at which `pat` occurs in
`s`; `none` is `std::string::npos`. -/
def string_find : List Nat → List Nat → Option Nat
  | [], pat => if pat = [] then some 0 else none
  | c :: t, pat => if pat.isPrefixOf (c :: t) then some 0 else (string_find t pat).map (· + 1)

/-- Model of `std::string::find(char)`: the first position of the character `ch`; `none` is
`std::string::npos`. -/
def string_find_char : List Nat → Nat → Option Nat
  | [], _ => none
  | x :: t, ch => if x = ch then some 0 else (string_find_char t ch).map (· + 1)

/-- Model of `std::string::find_first_not_of(const char*)`: the first position whose
character is not in `set`; `none` is `std::string::npos`. -/
def find_first_not_of : List Nat → List Nat → Option Nat
  | [], _ => none
  | x :: t, set => if x ∈ set then (find_first_not_of t set).map (· + 1) else some 0

/-- Model of `std::string::find_last_not_of(const char*)`: the last position whose
character is not in `set`; `none` is `std::string::npos`. -/
def find_last_not_of : List Nat → List Nat → Option Nat
  | [], _ => none
  | x :: t, set =>
    match find_last_not_of t set with
    | some j => some (j + 1)
    | none => if x ∈ set then none else some 0

/-- The two statements that trim `key` in `extract_websocket_key`:
`key.erase(0, key.find_first_not_of(" \t\r\n"))` removes the characters before the found
position, all of them when the position is `npos`;
`key.erase(key.find_last_not_of(" \t\r\n") + 1)` removes from the found position plus one
to the end, where `npos + 1` wraps to 0. -/
def trim_key (key : List Nat) : List Nat :=
  let key :=
    match find_first_not_of key (str " \t\r\n") with
    | some n => key.drop n
    | none => []
  let pos :=
    match find_last_not_of key (str " \t\r\n") with
    | some j => j + 1
    | none => 0
  key.take pos

/-- The `while (std::getline(iss, line))` loop of `extract_websocket_key`; the first
argument bounds the number of iterations. -/
def extract_loop : Nat → List Nat → List Nat
  | 0, _ => []
  | fuel + 1, iss =>
    match getline iss with
    | none => []
    | some (line, rest) =>
      if string_find line (str "Sec-WebSocket-Key:") = some 0 then
        match string_find_char line 58 with
        | some pos => trim_key (line.drop (pos + 1))
        | none => extract_loop fuel rest
      else
        extract_loop fuel rest

/-- Source: `WebSocketServer::extract_websocket_key` (WebSocketServer.cpp, 280-301).  Every
successful `getline` consumes at least one character, so `request.length + 1` iterations
are enough to reach the end of the request. -/
def extract_websocket_key (request : List Nat) : List Nat :=
  extract_loop (request.length + 1) request

/-- Removal of leading and trailing space, tab, CR and LF, as the specification words it. -/
def trim_spec (s : List Nat) : List Nat :=
  (s.dropWhile (· ∈ [32, 9, 13, 10])).rdropWhile (· ∈ [32, 9, 13, 10])

/-- The text after the first colon of a line. -/
def after_first_colon (line : List Nat) : List Nat :=
  (line.dropWhile (· ≠ 58)).drop 1

/-- The result of `extract_websocket_key` as the specification words it: split the request
into lines at LF, take the first line that begins with `Sec-WebSocket-Key:`, take the text
after its first colon and trim it; the empty string when there is no such line. -/
def extract_key_spec (request : List Nat) : List Nat :=
  match (request.splitOn 10).find? (fun l => (str "Sec-WebSocket-Key:").isPrefixOf l) with
  | none => []
  | some line => trim_spec (after_first_colon line)

/-! ## Handshake processor: the accept key -/

/-- Source: `WS_MAGIC_STRING` (WebSocketServer.cpp, 18). -/
def WS_MAGIC_STRING : List Nat := str "258EAFA5-E914-47DA-95CA-C5AB0DC85B11"

/-- Source: `SHA_DIGEST_LENGTH` of `<openssl/sha.h>`. -/
def SHA_DIGEST_LENGTH : Nat := 20

/-- Rotation of a 32-bit word to the left by `n` bits. -/
def rotl32 (x n : Nat) : Nat :=
  ((x <<< n) ||| (x >>> (32 - n))) % 2 ^ 32

/-- The four big-endian bytes of a 32-bit word. -/
def word_bytes (w : Nat) : List Nat :=
  [(w >>> 24) % 256, (w >>> 16) % 256, (w >>> 8) % 256, w % 256]

/-- The big-endian 32-bit words of a block of bytes, four bytes at a time. -/
def block_words : List Nat → List Nat
  | b0 :: b1 :: b2 :: b3 :: rest =>
    ((b0 % 256) <<< 24 ||| (b1 % 256) <<< 16 ||| (b2 % 256) <<< 8 ||| (b3 % 256)) :: block_words rest
  | _ => []

/-- The SHA-1 message schedule: `n` further words are appended to `w`, each
`rotl 1 (w[t-3] xor w[t-8] xor w[t-14] xor w[t-16])`. -/
def sha1_schedule : Nat → List Nat → List Nat
  | 0, w => w
  | n + 1, w =>
    let t := w.length
    sha1_schedule n
      (w ++ [rotl32 (w.getD (t - 3) 0 ^^^ w.getD (t - 8) 0 ^^^ w.getD (t - 14) 0 ^^^ w.getD (t - 16) 0) 1])

/-- The SHA-1 round function and round constant of round `t`. -/
def sha1_f_k (t b c d : Nat) : Nat × Nat :=
  if t < 20 then ((b &&& c) ||| ((b ^^^ 0xFFFFFFFF) &&& d), 0x5A827999)
  else if t < 40 then (b ^^^ c ^^^ d, 0x6ED9EBA1)
  else if t < 60 then ((b &&& c) ||| (b &&& d) ||| (c &&& d), 0x8F1BBCDC)
  else (b ^^^ c ^^^ d, 0xCA62C1D6)

/-- The five working variables of SHA-1. -/
structure Sha1State where
  a : Nat
  b : Nat
  c : Nat
  d : Nat
  e : Nat
deriving DecidableEq, Repr

/-- One of the 80 rounds of the SHA-1 compression function; `wt` is the schedule word. -/
def sha1_round (s : Sha1State) (t wt : Nat) : Sha1State :=
  let fk := sha1_f_k t s.b s.c s.d
  { a := (rotl32 s.a 5 + fk.1 + s.e + fk.2 + wt) % 2 ^ 32
    b := s.a
    c := rotl32 s.b 30
    d := s.c
    e := s.d }

/-- The rounds of a block over the schedule words, starting at round `t`. -/
def sha1_rounds : List Nat → Nat → Sha1State → Sha1State
  | [], _, s => s
  | wt :: ws, t, s => sha1_rounds ws (t + 1) (sha1_round s t wt)

/-- The SHA-1 compression of one 64-byte block into the chaining value `h`. -/
def sha1_block (h : Sha1State) (block : List Nat) : Sha1State :=
  let w := sha1_schedule 64 (block_words block)
  let s := sha1_rounds w 0 h
  { a := (h.a + s.a) % 2 ^ 32
    b := (h.b + s.b) % 2 ^ 32
    c := (h.c + s.c) % 2 ^ 32
    d := (h.d + s.d) % 2 ^ 32
    e := (h.e + s.e) % 2 ^ 32 }

/-- The compression of `n` consecutive 64-byte blocks of `msg`. -/
def sha1_blocks : Nat → Sha1State → List Nat → Sha1State
  | 0, h, _ => h
  | n + 1, h, msg => sha1_blocks n (sha1_block h (msg.take 64)) (msg.drop 64)

/-- SHA-1 padding: the byte `0x80`, zero bytes up to 56 modulo 64, and the bit length of
the message as 8 big-endian bytes. -/
def sha1_pad (msg : List Nat) : List Nat :=
  let zeros := (64 - (msg.length + 9) % 64) % 64
  msg ++ [0x80] ++ List.replicate zeros 0 ++ bigEndian 8 ((msg.length * 8) % 2 ^ 64)

/-- Modelled from the spec: `SHA1(d, n, md)` is a function of OpenSSL, whose code is not
part of the repository; the specification names it as the 20-byte SHA-1 digest of the `n`
bytes at `d`, which is defined here as in FIPS 180-4. -/
def SHA1 (d : List Nat) (n : Nat) : List Nat :=
  let padded := sha1_pad (d.take n)
  let h := sha1_blocks (padded.length / 64)
    { a := 0x67452301, b := 0xEFCDAB89, c := 0x98BADCFE, d := 0x10325476, e := 0xC3D2E1F0 } padded
  word_bytes h.a ++ word_bytes h.b ++ word_bytes h.c ++ word_bytes h.d ++ word_bytes h.e

/-- The base64 alphabet of RFC 4648. -/
def base64_alphabet : List Nat :=
  str "ABCDEFGHIJKLMNOPQRSTUVWXYZabcdefghijklmnopqrstuvwxyz0123456789+/"

/-- The character of a 6-bit value. -/
def base64_char (n : Nat) : Nat := base64_alphabet.getD n 0

/-- Modelled from the spec: what OpenSSL's `BIO_f_base64` filter with
`BIO_FLAGS_BASE64_NO_NL` writes for a byte string.  The filter is not part of the
repository; the specification names its output as the base64 encoding with no line
wrapping, defined here as the padded encoding of RFC 4648. -/
def base64 : List Nat → List Nat
  | a :: b :: c :: rest =>
    [base64_char (a >>> 2), base64_char (((a &&& 3) <<< 4) ||| (b >>> 4)),
      base64_char (((b &&& 15) <<< 2) ||| (c >>> 6)), base64_char (c &&& 63)] ++ base64 rest
  | [a, b] =>
    [base64_char (a >>> 2), base64_char (((a &&& 3) <<< 4) ||| (b >>> 4)),
      base64_char ((b &&& 15) <<< 2), 61]
  | [a] => [base64_char (a >>> 2), base64_char ((a &&& 3) <<< 4), 61, 61]
  | [] => []

/-- Source: `WebSocketServer::base64_encode` (WebSocketServer.cpp, 225-243): the `len`
bytes at `data` are written through the base64 filter and the content of the memory BIO
behind it is returned. -/
def base64_encode (data : List Nat) (len : Nat) : List Nat :=
  base64 (data.take len)

/-- Source: `WebSocketServer::generate_accept_key` (WebSocketServer.cpp, 245-251). -/
def generate_accept_key (key : List Nat) : List Nat :=
  let combined := key ++ WS_MAGIC_STRING
  let hash := SHA1 combined combined.length
  base64_encode hash SHA_DIGEST_LENGTH

/-! ## Connection registry, readiness multiplexer, inbox and event loop -/

/-- The state of a `WebSocketServer` that the event loop reads and writes.  `ws_connections`
is the `std::unordered_map<int, bool>` as an association list; the order of the list is the
iteration order of the map.  `epoll_set` is the interest list the kernel keeps for
`epoll_fd`.  `sent` records every call of `send` on a client socket, in call order, with
the descriptor and the bytes passed.  The content of the wake-up pipe and the console
output are not part of the state. -/
structure Server where
  server_fd : Int
  pipe_rd : Int
  pipe_wr : Int
  epoll_fd : Int
  ws_connections : List (Int × Bool)
  epoll_set : List Int
  pending_messages : List (List Nat)
  sent : List (Int × List Nat)
deriving DecidableEq, Repr

/-- What one call of `recv` on a client socket gives: some bytes (their number is the
return value), end of stream (return value 0), or an error (return value -1). -/
inductive RecvResult where
  | data (bytes : List Nat)
  | eof
  | error
deriving DecidableEq, Repr

/-- The return value of `recv`. -/
def RecvResult.bytes_read : RecvResult → Int
  | .data bytes => bytes.length
  | .eof => 0
  | .error => -1

/-- The buffer after `recv` and `buffer.resize(bytes_read)`. -/
def RecvResult.buffer : RecvResult → List Nat
  | .data bytes => bytes
  | .eof => []
  | .error => []

/-- What one call `send(fd, buf, len, 0)` on a client socket does.  It returns a value (the
number of bytes taken, which may be fewer than `len`, or -1), or it raises SIGPIPE because
the peer has reset the connection.  The source passes no `MSG_NOSIGNAL` and never changes
the disposition of SIGPIPE, so the signal terminates the process inside the call. -/
inductive SendResult where
  | returned (result : Int)
  | sigpipe
deriving DecidableEq, Repr

/-- How a part of the loop that calls `send` ends: it runs to its end with a result, or the
process is terminated inside a `send`; `killed` carries what had been reached then. -/
inductive Run (α β : Type) where
  | finished (result : α)
  | killed (reached : β)
deriving DecidableEq, Repr

/-- Assignment `m[k] = v` on the map: the entry of `k` is overwritten, or a new entry is
added when `k` has none. -/
def map_assign : List (Int × Bool) → Int → Bool → List (Int × Bool)
  | [], k, v => [(k, v)]
  | (k', v') :: m, k, v => if k' = k then (k, v) :: m else (k', v') :: map_assign m k v

/-- Reading `m[k]` on the map: the value of `k`; when `k` has no entry, `operator[]` first
adds one with the value `false`.  The result is the map afterwards and the value read. -/
def map_index (m : List (Int × Bool)) (k : Int) : List (Int × Bool) × Bool :=
  match m.lookup k with
  | some v => (m, v)
  | none => (map_assign m k false, false)

/-- The call `m.erase(k)` on the map. -/
def map_erase (m : List (Int × Bool)) (k : Int) : List (Int × Bool) :=
  m.filter (fun conn => conn.1 ≠ k)

/-- Source: `WebSocketServer::add_to_epoll` (WebSocketServer.cpp, 261-270).  `ok` tells
whether `epoll_ctl(EPOLL_CTL_ADD)` succeeded; on failure the source prints a message and
returns, and the interest list is unchanged. -/
def add_to_epoll (s : Server) (fd : Int) (ok : Bool) : Server :=
  if ok then { s with epoll_set := if fd ∈ s.epoll_set then s.epoll_set else s.epoll_set ++ [fd] }
  else s

/-- Source: the end of the constructor `WebSocketServer::WebSocketServer`
(WebSocketServer.cpp, 99-103), after the descriptors have been created: the listening
socket and the read end of the pipe are added to epoll, the registry and the inbox are
empty. -/
def WebSocketServer_new (server_fd pipe_rd pipe_wr epoll_fd : Int) (ok1 ok2 : Bool) : Server :=
  let s : Server :=
    { server_fd := server_fd, pipe_rd := pipe_rd, pipe_wr := pipe_wr, epoll_fd := epoll_fd,
      ws_connections := [], epoll_set := [], pending_messages := [], sent := [] }
  add_to_epoll (add_to_epoll s server_fd ok1) pipe_rd ok2

/-- Source: `WebSocketServer::queue_message` (WebSocketServer.cpp, 177-187). -/
def queue_message (s : Server) (message : List Nat) : Server :=
  { s with pending_messages := s.pending_messages ++ [message] }

/-- Source: `WebSocketServer::broadcast_message` (WebSocketServer.cpp, 209-212). -/
def broadcast_message (s : Server) (message : List Nat) : Server :=
  queue_message s message

/-- The loop `for (auto &conn : ws_connections)` of `broadcast_message_immediate`, over the
entries still to visit.  `send_result n` is what the `n`-th call of `send` of the server
does; a returned value only feeds `sent_count`, SIGPIPE ends the loop and the process with
the call recorded in the log. -/
def broadcast_loop (frame : List Nat) (send_result : Nat → SendResult) :
    List (Int × Bool) → List (Int × List Nat) → Nat →
      Run (List (Int × List Nat) × Nat) (List (Int × List Nat))
  | [], sent, sent_count => .finished (sent, sent_count)
  | conn :: rest, sent, sent_count =>
    if conn.2 then
      match send_result sent.length with
      | .sigpipe => .killed (sent ++ [(conn.1, frame)])
      | .returned result =>
        let sent := sent ++ [(conn.1, frame)]
        if result > 0 then broadcast_loop frame send_result rest sent (sent_count + 1)
        else broadcast_loop frame send_result rest sent sent_count
    else
      broadcast_loop frame send_result rest sent sent_count

/-- Source: `WebSocketServer::broadcast_message_immediate` (WebSocketServer.cpp, 189-207).
`sent_count` is only printed. -/
def broadcast_message_immediate (s : Server) (send_result : Nat → SendResult)
    (message : List Nat) : Run Server Server :=
  let frame := create_websocket_frame message
  match broadcast_loop frame send_result s.ws_connections s.sent 0 with
  | .finished (sent, _) => .finished { s with sent := sent }
  | .killed sent => .killed { s with sent := sent }

/-- The bytes `send_websocket_handshake` sends for the key `key`. -/
def handshake_response (key : List Nat) : List Nat :=
  str "HTTP/1.1 101 Switching Protocols\r\n" ++ str "Upgrade: websocket\r\n" ++
    str "Connection: Upgrade\r\n" ++ str "Sec-WebSocket-Accept: " ++ generate_accept_key key ++
    str "\r\n\r\n"

/-- Source: `WebSocketServer::send_websocket_handshake` (WebSocketServer.cpp, 303-316).  The
return value of `send` is not looked at. -/
def send_websocket_handshake (s : Server) (client_fd : Int) (key : List Nat) : Server :=
  let response := handshake_response key
  let s := { s with sent := s.sent ++ [(client_fd, response)] }
  { s with ws_connections := map_assign s.ws_connections client_fd true }

/-- Source: `WebSocketServer::close_connection` (WebSocketServer.cpp, 499-504).  After
`close(client_fd)` the kernel no longer has the descriptor in any interest list, whether or
not `epoll_ctl(EPOLL_CTL_DEL)` succeeded before. -/
def close_connection (s : Server) (client_fd : Int) : Server :=
  { s with
    epoll_set := s.epoll_set.filter (· ≠ client_fd)
    ws_connections := map_erase s.ws_connections client_fd }

/-- Source: `WebSocketServer::handle_new_connection` (WebSocketServer.cpp, 407-430).
`accept_result` is what `accept` returns, `nonblock_ok` what `set_non_blocking` returns,
`epoll_ok` whether `epoll_ctl(EPOLL_CTL_ADD)` succeeds. -/
def handle_new_connection (s : Server) (accept_result : Int) (nonblock_ok epoll_ok : Bool) :
    Server :=
  let client_fd := accept_result
  if client_fd = -1 then s
  else if !nonblock_ok then s
  else
    let s := add_to_epoll s client_fd epoll_ok
    { s with ws_connections := map_assign s.ws_connections client_fd false }

/-- Source: `WebSocketServer::handle_client_data` (WebSocketServer.cpp, 432-481).  The
result is `none` when `decode_websocket_frame` reads outside the buffer. -/
def handle_client_data (s : Server) (client_fd : Int) (recv : RecvResult) : Option Server :=
  let bytes_read := recv.bytes_read
  if bytes_read ≤ 0 then
    some (close_connection s client_fd)
  else
    let buffer := recv.buffer
    let indexed := map_index s.ws_connections client_fd
    let s := { s with ws_connections := indexed.1 }
    if !indexed.2 then
      let request := buffer
      let ws_key := extract_websocket_key request
      if ws_key ≠ [] then some (send_websocket_handshake s client_fd ws_key)
      else some (close_connection s client_fd)
    else
      (decode_websocket_frame buffer).map fun message =>
        if message ≠ [] then
          let response := str "Echo: " ++ message
          broadcast_message s response
        else s

/-- The loop `while (!pending_messages.empty())` of `handle_pending_messages`, over the
messages still in the queue. -/
def drain_loop (send_result : Nat → SendResult) : List (List Nat) → Server → Run Server Server
  | [], s => .finished { s with pending_messages := [] }
  | message :: rest, s =>
    match broadcast_message_immediate { s with pending_messages := rest } send_result message with
    | .finished s => drain_loop send_result rest s
    | .killed s => .killed s

/-- Source: `WebSocketServer::handle_pending_messages` (WebSocketServer.cpp, 483-497).  The
queue lock is held for the whole loop, so no message is added while it runs. -/
def handle_pending_messages (s : Server) (send_result : Nat → SendResult) : Run Server Server :=
  drain_loop send_result s.pending_messages s

/-- What the event loop and the other threads can do to the state. -/
inductive Event where
  | new_connection (accept_result : Int) (nonblock_ok epoll_ok : Bool)
  | client_data (client_fd : Int) (recv : RecvResult)
  | pending_messages (send_result : Nat → SendResult)
  | close (client_fd : Int)
  | queue (message : List Nat)

/-- The state after an event; `none` when the event runs into undefined behaviour or the
process is terminated in it. -/
def step (s : Server) : Event → Option Server
  | .new_connection accept_result nonblock_ok epoll_ok =>
    some (handle_new_connection s accept_result nonblock_ok epoll_ok)
  | .client_data client_fd recv => handle_client_data s client_fd recv
  | .pending_messages send_result =>
    match handle_pending_messages s send_result with
    | .finished s' => some s'
    | .killed _ => none
  | .close client_fd => some (close_connection s client_fd)
  | .queue message => some (queue_message s message)

/-- The descriptors of clients in the epoll interest list: all but the listening socket and
the read end of the pipe. -/
def epoll_clients (s : Server) : List Int :=
  s.epoll_set.filter (fun fd => fd ≠ s.server_fd ∧ fd ≠ s.pipe_rd)

/-- What the operating system and `run` guarantee of an event in state `s`: `accept` returns
-1 or a descriptor that is not open yet, and client data is dispatched only for a
descriptor that epoll reported, which is neither the listening socket nor the pipe. -/
def Event.enabled (s : Server) : Event → Prop
  | .new_connection accept_result _ _ =>
    accept_result = -1 ∨
      (0 ≤ accept_result ∧ accept_result ≠ s.server_fd ∧ accept_result ≠ s.pipe_rd ∧
        accept_result ≠ s.pipe_wr ∧ accept_result ≠ s.epoll_fd ∧
        accept_result ∉ s.ws_connections.map Prod.fst)
  | .client_data client_fd _ =>
    client_fd ∈ s.epoll_set ∧ client_fd ≠ s.server_fd ∧ client_fd ≠ s.pipe_rd
  | .pending_messages _ => True
  | .close _ => True
  | .queue _ => True

/-- The events in which every `epoll_ctl(EPOLL_CTL_ADD)` on an accepted socket succeeds. -/
def Event.epoll_add_ok : Event → Prop
  | .new_connection _ _ epoll_ok => epoll_ok = true
  | _ => True

/-- The states the server reaches from the state `s0` by enabled events that satisfy
`allowed`. -/
inductive Reachable (allowed : Event → Prop) (s0 : Server) : Server → Prop where
  | init : Reachable allowed s0 s0
  | step (s s' : Server) (e : Event) :
    Reachable allowed s0 s → allowed e → e.enabled s → step s e = some s' →
    Reachable allowed s0 s'

/-- Registry and multiplexer agree: the client descriptors in the epoll interest list are
exactly the keys of `ws_connections`. -/
def registry_matches_epoll (s : Server) : Prop :=
  ∀ fd, fd ∈ epoll_clients s ↔ fd ∈ s.ws_connections.map Prod.fst

/-- The byte strings passed to `send` on the descriptor `fd`, in call order, in a log of
`send` calls. -/
def sends_to (fd : Int) (log : List (Int × List Nat)) : List (List Nat) :=
  (log.filter (fun call => call.1 = fd)).map Prod.snd

/-! ## Frame codec: lemmas -/

theorem bigEndian_length (k n : Nat) : (bigEndian k n).length = k := by
  induction k with
  | zero => rfl
  | succ k ih => simp [bigEndian, ih]

theorem bigEndian_lt (k n : Nat) : ∀ b ∈ bigEndian k n, b < 256 := by
  induction k with
  | zero => simp [bigEndian]
  | succ k ih =>
    intro b hb
    simp only [bigEndian, List.mem_cons] at hb
    rcases hb with rfl | hb
    · exact Nat.mod_lt _ (by norm_num)
    · exact ih b hb

theorem foldl_bigEndian (k n acc : Nat) :
    (bigEndian k n).foldl (fun a b => a * 256 + b) acc = acc * 256 ^ k + n % 256 ^ k := by
  induction k generalizing acc with
  | zero => simp [bigEndian, Nat.mod_one]
  | succ k ih =>
    simp only [bigEndian, List.foldl_cons, ih]
    have h1 : n % 256 ^ (k + 1) = 256 ^ k * (n / 256 ^ k % 256) + n % 256 ^ k := by
      rw [pow_succ, Nat.mod_mul, Nat.add_comm]
    rw [h1]; ring

theorem fromBigEndian_bigEndian (k n : Nat) (h : n < 256 ^ k) :
    fromBigEndian (bigEndian k n) = n := by
  unfold fromBigEndian
  rw [foldl_bigEndian, Nat.mod_eq_of_lt h]; simp

theorem shr_and_byte (n i : Nat) : (n >>> (i * 8)) &&& 0xFF = n / 256 ^ i % 256 := by
  have h : (0xFF : Nat) = 2 ^ 8 - 1 := by norm_num
  rw [h, Nat.and_pow_two_sub_one_eq_mod, Nat.shiftRight_eq_div_pow, Nat.mul_comm, pow_mul]
  norm_num

theorem push_length_bytes_eq (n k : Nat) (frame : List Nat) :
    push_length_bytes n k frame = frame ++ bigEndian k n := by
  induction k generalizing frame with
  | zero => simp [push_length_bytes, bigEndian]
  | succ k ih =>
    simp only [push_length_bytes, bigEndian, ih, shr_and_byte, List.append_assoc,
      List.singleton_append]

theorem shl_or_byte (a d : Nat) (hd : d < 256) : (a <<< 8) ||| d = a * 256 + d := by
  rw [Nat.shiftLeft_eq]
  have := Nat.mul_add_lt_is_or (i := 8) (b := d) (by simpa using hd) a
  rw [Nat.mul_comm] at this
  simpa using this.symm

theorem read_length64_eq (data : List Nat) (bs : List Nat) :
    ∀ (pre rest : List Nat) (i acc : Nat), data = pre ++ bs ++ rest → pre.length = 2 + i →
      (∀ b ∈ bs, b < 256) → (acc + 1) * 256 ^ bs.length ≤ 2 ^ 64 →
      read_length64 data bs.length i acc = some (bs.foldl (fun a b => a * 256 + b) acc) := by
  induction bs with
  | nil => intro pre rest i acc _ _ _ _; simp [read_length64]
  | cons b bs ih =>
    intro pre rest i acc hdata hpre hlt hacc
    have hb : b < 256 := hlt b (List.mem_cons_self _ _)
    have hget : data[2 + i]? = some b := by
      rw [hdata, List.append_assoc, List.getElem?_append_right (by omega)]
      simp [hpre]
    have hpow : 0 < 256 ^ bs.length := Nat.pow_pos (by norm_num)
    have hacc2 : (acc + 1) * 256 * 256 ^ bs.length ≤ 2 ^ 64 := by
      simpa [pow_succ, Nat.mul_assoc, Nat.mul_comm, Nat.mul_left_comm] using hacc
    have hsmall : acc * 256 < 2 ^ 64 := by nlinarith
    simp only [List.length_cons, read_length64, hget, Option.some_bind, List.foldl_cons]
    rw [Nat.shiftLeft_eq, show (2:Nat) ^ 8 = 256 by norm_num, Nat.mod_eq_of_lt hsmall]
    have hor : acc * 256 ||| b = acc * 256 + b := by
      have := shl_or_byte acc b hb
      rwa [Nat.shiftLeft_eq] at this
    rw [hor]
    apply ih (pre ++ [b]) rest (i + 1) (acc * 256 + b)
    · simp [hdata]
    · simp [hpre]; omega
    · intro x hx; exact hlt x (List.mem_cons_of_mem _ hx)
    · nlinarith

theorem create_websocket_frame_eq (m : List Nat) (h : m.length < 2 ^ 64) :
    create_websocket_frame m = 0x81 :: (length_field m.length ++ m) := by
  unfold create_websocket_frame length_field
  simp only [Nat.mod_eq_of_lt h]
  by_cases h1 : m.length < 126
  · simp [h1, Nat.mod_eq_of_lt (show m.length < 256 by omega)]
  · by_cases h2 : m.length < 65536
    · have e1 := shr_and_byte m.length 1
      have e0 := shr_and_byte m.length 0
      simp only [Nat.one_mul, Nat.zero_mul, Nat.shiftRight_zero] at e1 e0
      simp [h1, h2, bigEndian, e1, e0]
    · simp [h1, h2, push_length_bytes_eq]

theorem and_7F_of_lt : ∀ n, n < 128 → n &&& 0x7F = n := by
  intro n hn
  have h : (0x7F : Nat) = 2 ^ 7 - 1 := by norm_num
  rw [h, Nat.and_pow_two_sub_one_eq_mod]
  exact Nat.mod_eq_of_lt (by simpa using hn)

theorem and_80_of_lt : ∀ n, n < 128 → n &&& 0x80 = 0 := by decide

theorem decode_payload_unmasked (pre x rest : List Nat) :
    decode_payload (pre ++ x ++ rest) false x.length pre.length = some x := by
  unfold decode_payload
  have hle := Nat.mod_le (pre.length + x.length) (2 ^ 64)
  simp only [Bool.false_eq_true, if_false, List.length_append]
  rw [if_neg (by omega), if_pos (by omega)]
  simp [List.append_assoc]

theorem decode_short (d0 d1 : Nat) (tail : List Nat) (h6 : d1 &&& 0x7F ≠ 126)
    (h7 : d1 &&& 0x7F ≠ 127) :
    decode_websocket_frame (d0 :: d1 :: tail) =
      decode_payload (d0 :: d1 :: tail) ((d1 &&& 0x80) != 0) (d1 &&& 0x7F) 2 := by
  unfold decode_websocket_frame
  simp [h6, h7]

theorem decode_126 (d0 d1 d2 d3 : Nat) (tail : List Nat) (h6 : d1 &&& 0x7F = 126) :
    decode_websocket_frame (d0 :: d1 :: d2 :: d3 :: tail) =
      decode_payload (d0 :: d1 :: d2 :: d3 :: tail) ((d1 &&& 0x80) != 0) ((d2 <<< 8) ||| d3) 4 := by
  unfold decode_websocket_frame
  simp only [h6, List.length_cons, List.getElem?_cons_zero, List.getElem?_cons_succ,
    Option.some_bind, if_true]
  rw [if_neg (by omega), if_neg (by omega)]

theorem decode_127 (d0 d1 : Nat) (bs tail : List Nat) (h7 : d1 &&& 0x7F = 127)
    (hlen : bs.length = 8) (hlt : ∀ b ∈ bs, b < 256) :
    decode_websocket_frame (d0 :: d1 :: (bs ++ tail)) =
      decode_payload (d0 :: d1 :: (bs ++ tail)) ((d1 &&& 0x80) != 0) (fromBigEndian bs) 10 := by
  have hr := read_length64_eq (d0 :: d1 :: (bs ++ tail)) bs [d0, d1] tail 0 0 (by simp) (by simp)
    hlt (by rw [hlen]; norm_num)
  rw [hlen] at hr
  unfold decode_websocket_frame
  simp only [List.length_cons, List.length_append, hlen, List.getElem?_cons_zero,
    List.getElem?_cons_succ, Option.some_bind]
  rw [if_neg (by omega), if_neg (by omega), if_pos h7, if_neg (by omega), hr]
  rfl

theorem two_bytes_value (n : Nat) (h : n < 65536) :
    ((n / 256 % 256) <<< 8) ||| (n % 256) = n := by
  rw [shl_or_byte _ _ (Nat.mod_lt _ (by norm_num))]
  omega

theorem decode_create (x : List Nat) (h : x.length < 2 ^ 64) :
    decode_websocket_frame (create_websocket_frame x) = some x := by
  rw [create_websocket_frame_eq x h]
  unfold length_field
  by_cases h1 : x.length < 126
  · rw [if_pos h1]
    have a7 := and_7F_of_lt x.length (by omega)
    have a8 := and_80_of_lt x.length (by omega)
    show decode_websocket_frame (0x81 :: x.length :: x) = some x
    rw [decode_short _ _ _ (by rw [a7]; omega) (by rw [a7]; omega), a7, a8]
    have := decode_payload_unmasked [0x81, x.length] x []
    simpa using this
  · rw [if_neg h1]
    by_cases h2 : x.length < 65536
    · rw [if_pos h2]
      show decode_websocket_frame
        (0x81 :: 126 :: (x.length / 256 ^ 1 % 256) :: (x.length / 256 ^ 0 % 256) :: x) = some x
      rw [decode_126 _ _ _ _ _ (by decide)]
      simp only [pow_one, pow_zero, Nat.div_one]
      rw [two_bytes_value _ h2]
      have := decode_payload_unmasked [0x81, 126, x.length / 256 % 256, x.length % 256] x []
      simpa using this
    · rw [if_neg h2]
      show decode_websocket_frame (0x81 :: 127 :: (bigEndian 8 x.length ++ x)) = some x
      rw [decode_127 _ _ _ _ (by decide) (bigEndian_length _ _) (bigEndian_lt _ _),
        fromBigEndian_bigEndian _ _ (by simpa using h)]
      have := decode_payload_unmasked (0x81 :: 127 :: bigEndian 8 x.length) x []
      simpa [bigEndian_length] using this

theorem xor_mask_length (key : List Nat) (i : Nat) (p : List Nat) :
    (xor_mask key i p).length = p.length := by
  induction p generalizing i with
  | nil => rfl
  | cons b bs ih => simp [xor_mask, ih]

theorem unmask_loop_eq (data key : List Nat) (header_len : Nat) (hdata : data.length < 2 ^ 64)
    (p : List Nat) :
    ∀ (pre rest : List Nat) (i : Nat) (acc : List Nat),
      data = pre ++ xor_mask key i p ++ rest → pre.length = header_len + i →
      (∀ b ∈ p, b < 256) →
      unmask_loop data key header_len p.length i acc = some (acc ++ p) := by
  induction p with
  | nil => intro pre rest i acc _ _ _; simp [unmask_loop]
  | cons b bs ih =>
    intro pre rest i acc hd hpre hlt
    have hb : b < 256 := hlt b (List.mem_cons_self _ _)
    have hlen : header_len + i < data.length := by
      rw [hd]; simp [xor_mask, hpre]
    have hget : data[(header_len + i) % 2 ^ 64]? = some (b ^^^ key.getD (i % 4) 0) := by
      rw [Nat.mod_eq_of_lt (by omega), hd, List.append_assoc,
        List.getElem?_append_right (by omega)]
      simp [hpre, xor_mask]
    simp only [List.length_cons, unmask_loop, hget, Option.some_bind, Nat.xor_cancel_right,
      Nat.mod_eq_of_lt hb]
    rw [ih (pre ++ [b ^^^ key.getD (i % 4) 0]) rest (i + 1) (acc ++ [b])]
    · simp
    · simp [hd, xor_mask]
    · simp [hpre]; omega
    · intro x hx; exact hlt x (List.mem_cons_of_mem _ hx)

theorem getElem?_append_add (pre l : List Nat) (j : Nat) :
    (pre ++ l)[pre.length + j]? = l[j]? := by
  rw [List.getElem?_append_right (by omega)]; simp

theorem decode_payload_masked (pre p rest : List Nat) (k0 k1 k2 k3 : Nat)
    (hlen : (pre ++ [k0, k1, k2, k3] ++ xor_mask [k0, k1, k2, k3] 0 p ++ rest).length < 2 ^ 64)
    (hlt : ∀ b ∈ p, b < 256) :
    decode_payload (pre ++ [k0, k1, k2, k3] ++ xor_mask [k0, k1, k2, k3] 0 p ++ rest) true
      p.length pre.length = some p := by
  have hloop := unmask_loop_eq _ [k0, k1, k2, k3] (pre.length + 4) hlen p
    (pre ++ [k0, k1, k2, k3]) rest 0 [] rfl (by simp) hlt
  unfold decode_payload
  have hle := Nat.mod_le (pre.length + 4 + p.length) (2 ^ 64)
  simp only [if_true, List.length_append, xor_mask_length, List.length_cons, List.length_nil]
  rw [if_neg (by omega)]
  have g0 : (pre ++ [k0, k1, k2, k3] ++ xor_mask [k0, k1, k2, k3] 0 p ++ rest)[pre.length + 4 - 4]?
      = some k0 := by
    rw [show pre.length + 4 - 4 = pre.length + 0 by omega, List.append_assoc, List.append_assoc,
      getElem?_append_add]; simp
  have g1 : (pre ++ [k0, k1, k2, k3] ++ xor_mask [k0, k1, k2, k3] 0 p ++ rest)[pre.length + 4 - 3]?
      = some k1 := by
    rw [show pre.length + 4 - 3 = pre.length + 1 by omega, List.append_assoc, List.append_assoc,
      getElem?_append_add]; simp
  have g2 : (pre ++ [k0, k1, k2, k3] ++ xor_mask [k0, k1, k2, k3] 0 p ++ rest)[pre.length + 4 - 2]?
      = some k2 := by
    rw [show pre.length + 4 - 2 = pre.length + 2 by omega, List.append_assoc, List.append_assoc,
      getElem?_append_add]; simp
  have g3 : (pre ++ [k0, k1, k2, k3] ++ xor_mask [k0, k1, k2, k3] 0 p ++ rest)[pre.length + 4 - 1]?
      = some k3 := by
    rw [show pre.length + 4 - 1 = pre.length + 3 by omega, List.append_assoc, List.append_assoc,
      getElem?_append_add]; simp
  rw [g0, g1, g2, g3]
  simpa using hloop

theorem masked_byte_7F : ∀ n, n < 126 → (0x80 + n) &&& 0x7F = n := by decide

theorem masked_byte_80 : ∀ n, n < 126 → (0x80 + n) &&& 0x80 = 0x80 := by decide

theorem decode_client_frame (k0 k1 k2 k3 : Nat) (p : List Nat)
    (hlen : (client_frame [k0, k1, k2, k3] p).length < 2 ^ 64) (hlt : ∀ b ∈ p, b < 256) :
    decode_websocket_frame (client_frame [k0, k1, k2, k3] p) = some p := by
  unfold client_frame masked_length_field at *
  by_cases h1 : p.length < 126
  · rw [if_pos h1] at hlen ⊢
    have a7 := masked_byte_7F p.length h1
    have a8 := masked_byte_80 p.length h1
    show decode_websocket_frame (0x81 :: (0x80 + p.length) :: _) = some p
    rw [decode_short _ _ _ (by rw [a7]; omega) (by rw [a7]; omega), a7, a8]
    have := decode_payload_masked [0x81, 0x80 + p.length] p [] k0 k1 k2 k3
      (by simpa using hlen) hlt
    simpa using this
  · rw [if_neg h1] at hlen ⊢
    by_cases h2 : p.length < 65536
    · rw [if_pos h2] at hlen ⊢
      show decode_websocket_frame
        (0x81 :: 0xFE :: (p.length / 256 ^ 1 % 256) :: (p.length / 256 ^ 0 % 256) :: _) = some p
      rw [decode_126 _ _ _ _ _ (by decide)]
      simp only [pow_one, pow_zero, Nat.div_one]
      rw [two_bytes_value _ h2]
      have := decode_payload_masked [0x81, 0xFE, p.length / 256 % 256, p.length % 256] p []
        k0 k1 k2 k3 (by simpa [bigEndian] using hlen) hlt
      simpa using this
    · rw [if_neg h2] at hlen ⊢
      have hp : p.length < 256 ^ 8 := by
        simp only [List.length_cons, List.length_append, bigEndian_length, xor_mask_length] at hlen
        norm_num at hlen ⊢
        omega
      show decode_websocket_frame (0x81 :: 0xFF :: (bigEndian 8 p.length ++ _)) = some p
      rw [decode_127 _ _ _ _ (by decide) (bigEndian_length _ _) (bigEndian_lt _ _),
        fromBigEndian_bigEndian _ _ hp]
      have := decode_payload_masked (0x81 :: 0xFF :: bigEndian 8 p.length) p [] k0 k1 k2 k3
        (by simpa using hlen) hlt
      simpa [bigEndian_length] using this

theorem read_length64_first_byte (d0 d0' : Nat) (rest : List Nat) (n i acc : Nat) :
    read_length64 (d0 :: rest) n i acc = read_length64 (d0' :: rest) n i acc := by
  induction n generalizing i acc with
  | zero => rfl
  | succ n ih =>
    simp only [read_length64, show 2 + i = (1 + i) + 1 by omega, List.getElem?_cons_succ]
    congr 1
    funext d
    exact ih _ _

theorem unmask_loop_first_byte (d0 d0' : Nat) (rest mask : List Nat) (header_len : Nat)
    (h1 : 1 ≤ header_len) (hlen : rest.length + 1 < 2 ^ 64) (n : Nat) :
    ∀ (i : Nat) (acc : List Nat), header_len + i ≤ rest.length + 1 →
      unmask_loop (d0 :: rest) mask header_len n i acc =
        unmask_loop (d0' :: rest) mask header_len n i acc := by
  induction n with
  | zero => intro i acc _; rfl
  | succ n ih =>
    intro i acc hi
    have hmod : (header_len + i) % 2 ^ 64 = (header_len + i - 1) + 1 := by
      rw [Nat.mod_eq_of_lt (by omega)]; omega
    simp only [unmask_loop, hmod, List.getElem?_cons_succ]
    by_cases hlt : header_len + i - 1 < rest.length
    · have hget : rest[header_len + i - 1]? = some (rest[header_len + i - 1]) :=
        List.getElem?_eq_getElem hlt
      rw [hget]
      simp only [Option.some_bind]
      exact ih _ _ (by omega)
    · have hget : rest[header_len + i - 1]? = none := List.getElem?_eq_none (by omega)
      rw [hget]
      rfl

theorem decode_payload_first_byte (d0 d0' : Nat) (rest : List Nat) (masked : Bool)
    (payload_len header_len : Nat) (h2 : 2 ≤ header_len) (hlen : rest.length + 1 < 2 ^ 64) :
    decode_payload (d0 :: rest) masked payload_len header_len =
      decode_payload (d0' :: rest) masked payload_len header_len := by
  unfold decode_payload
  cases masked with
  | false =>
    simp only [Bool.false_eq_true, if_false, List.length_cons]
    rw [show header_len = (header_len - 1) + 1 by omega, List.drop_succ_cons, List.drop_succ_cons]
  | true =>
    simp only [if_true, List.length_cons]
    by_cases hc : rest.length + 1 < (header_len + 4 + payload_len) % 2 ^ 64
    · rw [if_pos hc, if_pos hc]
    · rw [if_neg hc, if_neg hc]
      rw [show header_len + 4 - 4 = (header_len - 1) + 1 by omega,
        show header_len + 4 - 3 = header_len + 1 by omega,
        show header_len + 4 - 2 = (header_len + 1) + 1 by omega,
        show header_len + 4 - 1 = (header_len + 2) + 1 by omega]
      simp only [List.getElem?_cons_succ]
      by_cases h3 : header_len + 2 < rest.length
      · rw [List.getElem?_eq_getElem (show header_len - 1 < rest.length by omega),
          List.getElem?_eq_getElem (show header_len < rest.length by omega),
          List.getElem?_eq_getElem (show header_len + 1 < rest.length by omega),
          List.getElem?_eq_getElem h3]
        simp only [Option.some_bind]
        exact unmask_loop_first_byte d0 d0' rest _ _ (by omega) hlen _ 0 [] (by omega)
      · have hn : rest[header_len + 2]? = none := List.getElem?_eq_none (by omega)
        rw [hn]
        cases rest[header_len - 1]? <;> cases rest[header_len]? <;>
          cases rest[header_len + 1]? <;> rfl

theorem decode_first_byte (d0 d0' : Nat) (rest : List Nat) (hlen : rest.length + 1 < 2 ^ 64) :
    decode_websocket_frame (d0 :: rest) = decode_websocket_frame (d0' :: rest) := by
  unfold decode_websocket_frame
  simp only [List.length_cons, List.getElem?_cons_zero, List.getElem?_cons_succ, Option.some_bind]
  by_cases hl : rest.length + 1 < 2
  · rw [if_pos hl, if_pos hl]
  · rw [if_neg hl, if_neg hl]
    cases rest[0]? with
    | none => rfl
    | some d1 =>
      simp only [Option.some_bind]
      split_ifs
      · rfl
      · cases rest[1]? with
        | none => rfl
        | some d2 =>
          cases rest[2]? with
          | none => rfl
          | some d3 =>
            simp only [Option.some_bind]
            exact decode_payload_first_byte d0 d0' rest _ _ 4 (by omega) hlen
      · rfl
      · rw [read_length64_first_byte d0 d0']
        cases read_length64 (d0' :: rest) 8 0 0 with
        | none => rfl
        | some pl =>
          simp only [Option.some_bind]
          exact decode_payload_first_byte d0 d0' rest _ _ 10 (by omega) hlen
      · exact decode_payload_first_byte d0 d0' rest _ _ 2 (by omega) hlen

/-! ## Handshake processor: key extraction -/

theorem string_find_eq_zero (line pat : List Nat) :
    string_find line pat = some 0 ↔ pat.isPrefixOf line = true := by
  cases line with
  | nil =>
    cases pat with
    | nil => simp [string_find]
    | cons a as => simp [string_find, List.isPrefixOf]
  | cons c t =>
    by_cases h : pat.isPrefixOf (c :: t) = true
    · simp [string_find, h]
    · simp only [string_find, h]
      cases string_find t pat <;> simp

theorem string_find_char_spec (ch : Nat) (s : List Nat) :
    match string_find_char s ch with
    | some pos => s.drop (pos + 1) = (s.dropWhile (· ≠ ch)).drop 1
    | none => ch ∉ s := by
  induction s with
  | nil => simp [string_find_char]
  | cons x t ih =>
    by_cases h : x = ch
    · simp [string_find_char, h]
    · simp only [string_find_char, h, if_false]
      cases hf : string_find_char t ch with
      | none =>
        rw [hf] at ih
        simp only [Option.map_none']
        intro hmem
        rcases List.mem_cons.mp hmem with h1 | h1
        · exact h h1.symm
        · exact ih h1
      | some pos =>
        rw [hf] at ih
        simp only [Option.map_some']
        rw [List.drop_succ_cons, ih, List.dropWhile_cons_of_pos (by simpa using h)]

theorem find_first_not_of_spec (set s : List Nat) :
    (match find_first_not_of s set with
      | some n => s.drop n
      | none => []) = s.dropWhile (· ∈ set) := by
  induction s with
  | nil => simp [find_first_not_of]
  | cons x t ih =>
    by_cases h : x ∈ set
    · simp only [find_first_not_of, h, if_true]
      rw [List.dropWhile_cons_of_pos (by simpa using h), ← ih]
      cases find_first_not_of t set <;> simp
    · simp only [find_first_not_of, h, if_false]
      rw [List.dropWhile_cons_of_neg (by simpa using h)]
      simp

theorem rdropWhile_cons (p : Nat → Bool) (x : Nat) (t : List Nat) :
    (x :: t).rdropWhile p =
      if t.rdropWhile p = [] then (if p x then [] else [x]) else x :: t.rdropWhile p := by
  induction t using List.reverseRecOn with
  | nil =>
    by_cases hx : p x = true
    · simp [List.rdropWhile, hx]
    · simp [List.rdropWhile, hx]
  | append_singleton t y ih =>
    by_cases hy : p y = true
    · rw [← List.cons_append, List.rdropWhile_concat_pos _ _ _ hy,
        List.rdropWhile_concat_pos _ _ _ hy]
      exact ih
    · rw [← List.cons_append, List.rdropWhile_concat_neg _ _ _ hy,
        List.rdropWhile_concat_neg _ _ _ hy]
      simp

theorem find_last_not_of_spec (set s : List Nat) :
    (match find_last_not_of s set with
      | some j => j + 1
      | none => 0) = (s.rdropWhile (· ∈ set)).length := by
  induction s with
  | nil => simp [find_last_not_of]
  | cons x t ih =>
    rw [rdropWhile_cons]
    cases hf : find_last_not_of t set with
    | some j =>
      rw [hf] at ih
      have ih2 : j + 1 = (t.rdropWhile (· ∈ set)).length := ih
      have hne : t.rdropWhile (· ∈ set) ≠ [] := by
        intro h0; rw [h0] at ih2; simp at ih2
      rw [if_neg hne]
      simp [find_last_not_of, hf, ← ih2]
    | none =>
      rw [hf] at ih
      have h0 : t.rdropWhile (· ∈ set) = [] := List.length_eq_zero.mp ih.symm
      simp only [find_last_not_of, hf, if_pos h0]
      by_cases h : x ∈ set
      · simp [h]
      · simp [h]

theorem trim_key_eq (key : List Nat) : trim_key key = trim_spec key := by
  unfold trim_key trim_spec
  have hset : str " \t\r\n" = [32, 9, 13, 10] := by decide
  simp only [hset]
  rw [find_first_not_of_spec, find_last_not_of_spec]
  have hp := List.rdropWhile_prefix (fun x => decide (x ∈ [32, 9, 13, 10]))
    (List.dropWhile (fun x => decide (x ∈ [32, 9, 13, 10])) key)
  exact (List.prefix_iff_eq_take.mp hp).symm

theorem splitOn_lf (input : List Nat) :
    input.splitOn 10 = input.takeWhile (· ≠ 10) ::
      (match input.dropWhile (· ≠ 10) with
        | [] => []
        | _ :: rest => rest.splitOn 10) := by
  induction input with
  | nil => rfl
  | cons x xs ih =>
    unfold List.splitOn at ih ⊢
    rw [List.splitOnP_cons]
    by_cases h : x = 10
    · subst h; simp
    · have hb : ¬ ((x == 10) = true) := by simpa using h
      rw [if_neg hb, ih]
      simp [List.modifyHead, h]

theorem header_mem_colon (line : List Nat)
    (h : (str "Sec-WebSocket-Key:").isPrefixOf line = true) : 58 ∈ line := by
  have hp : str "Sec-WebSocket-Key:" <+: line := List.isPrefixOf_iff_prefix.mp h
  exact hp.subset (by decide)

theorem extract_loop_eq_spec (fuel : Nat) :
    ∀ input : List Nat, input.length < fuel → extract_loop fuel input = extract_key_spec input := by
  induction fuel with
  | zero => intro input h; omega
  | succ fuel ih =>
    intro input hlen
    cases input with
    | nil => rfl
    | cons c cs =>
      have hsplit := splitOn_lf (c :: cs)
      have hrest : (((c :: cs).dropWhile (· ≠ 10)).drop 1).length < fuel := by
        have := (List.dropWhile_sublist (fun x => decide (x ≠ 10)) (l := c :: cs)).length_le
        simp only [List.length_drop, List.length_cons] at this hlen ⊢
        omega
      simp only [extract_loop, getline, extract_key_spec, hsplit, List.find?_cons]
      by_cases hpre : (str "Sec-WebSocket-Key:").isPrefixOf ((c :: cs).takeWhile (· ≠ 10)) = true
      · rw [if_pos ((string_find_eq_zero _ _).mpr hpre), hpre]
        have hcolon := header_mem_colon _ hpre
        have hspec := string_find_char_spec 58 ((c :: cs).takeWhile (· ≠ 10))
        cases hf : string_find_char ((c :: cs).takeWhile (· ≠ 10)) 58 with
        | none => rw [hf] at hspec; exact absurd hcolon hspec
        | some pos =>
          rw [hf] at hspec
          simp only [hspec, trim_key_eq, after_first_colon]
      · rw [if_neg (fun hh => hpre ((string_find_eq_zero _ _).mp hh))]
        have hfalse : (str "Sec-WebSocket-Key:").isPrefixOf ((c :: cs).takeWhile (· ≠ 10)) = false := by
          exact (Bool.not_eq_true _).mp hpre
        rw [hfalse, ih _ hrest]
        cases hd : (c :: cs).dropWhile (· ≠ 10) with
        | nil => rfl
        | cons d r => simp [extract_key_spec]

theorem extract_eq_spec (request : List Nat) :
    extract_websocket_key request = extract_key_spec request :=
  extract_loop_eq_spec _ request (Nat.lt_succ_self _)

/-! ## Registry and event loop: lemmas -/

theorem broadcast_message_immediate_frame (s s' : Server) (send_result : Nat → SendResult)
    (message : List Nat)
    (h : broadcast_message_immediate s send_result message = .finished s') :
    s'.ws_connections = s.ws_connections ∧ s'.epoll_set = s.epoll_set ∧
      s'.server_fd = s.server_fd ∧ s'.pipe_rd = s.pipe_rd ∧
      s'.pending_messages = s.pending_messages := by
  unfold broadcast_message_immediate at h
  simp only at h
  cases hb : broadcast_loop (create_websocket_frame message) send_result s.ws_connections
      s.sent 0 with
  | finished r =>
    rw [hb] at h
    simp only [Run.finished.injEq] at h
    subst h
    exact ⟨rfl, rfl, rfl, rfl, rfl⟩
  | killed r =>
    rw [hb] at h
    simp at h

theorem drain_loop_frame (send_result : Nat → SendResult) (l : List (List Nat)) :
    ∀ s s' : Server, drain_loop send_result l s = .finished s' →
      s'.ws_connections = s.ws_connections ∧ s'.epoll_set = s.epoll_set ∧
      s'.server_fd = s.server_fd ∧ s'.pipe_rd = s.pipe_rd ∧ s'.pending_messages = [] := by
  induction l with
  | nil =>
    intro s s' h
    simp only [drain_loop, Run.finished.injEq] at h
    subst h
    exact ⟨rfl, rfl, rfl, rfl, rfl⟩
  | cons message rest ih =>
    intro s s' h
    simp only [drain_loop] at h
    cases hb : broadcast_message_immediate { s with pending_messages := rest } send_result
        message with
    | finished t =>
      rw [hb] at h
      have h1 := broadcast_message_immediate_frame _ _ _ _ hb
      have h2 := ih t s' h
      exact ⟨h2.1.trans h1.1, h2.2.1.trans h1.2.1, h2.2.2.1.trans h1.2.2.1,
        h2.2.2.2.1.trans h1.2.2.2.1, h2.2.2.2.2⟩
    | killed t =>
      rw [hb] at h
      simp at h

theorem step_pending_messages (s s' : Server) (send_result : Nat → SendResult)
    (h : step s (.pending_messages send_result) = some s') :
    handle_pending_messages s send_result = .finished s' := by
  simp only [step] at h
  cases hh : handle_pending_messages s send_result with
  | finished t =>
    rw [hh] at h
    simp only [Option.some.injEq] at h
    rw [h]
  | killed t =>
    rw [hh] at h
    simp at h

theorem broadcast_loop_sent (frame : List Nat) (send_result : Nat → SendResult)
    (hret : ∀ n, send_result n ≠ .sigpipe) (conns : List (Int × Bool)) :
    ∀ (sent : List (Int × List Nat)) (c : Nat),
      ∃ c', broadcast_loop frame send_result conns sent c =
        .finished
          (sent ++ (conns.filter (fun conn => conn.2)).map (fun conn => (conn.1, frame)), c') := by
  induction conns with
  | nil => intro sent c; exact ⟨c, by simp [broadcast_loop]⟩
  | cons conn rest ih =>
    intro sent c
    cases hv : conn.2
    · obtain ⟨c', hc⟩ := ih sent c
      exact ⟨c', by simp [broadcast_loop, hv, hc]⟩
    · cases hr : send_result sent.length with
      | sigpipe => exact absurd hr (hret _)
      | returned result =>
        by_cases hpos : result > 0
        · obtain ⟨c', hc⟩ := ih (sent ++ [(conn.1, frame)]) (c + 1)
          exact ⟨c', by simp [broadcast_loop, hv, hr, hpos, hc]⟩
        · obtain ⟨c', hc⟩ := ih (sent ++ [(conn.1, frame)]) c
          exact ⟨c', by simp [broadcast_loop, hv, hr, hpos, hc]⟩

theorem drain_loop_sent (send_result : Nat → SendResult)
    (hret : ∀ n, send_result n ≠ .sigpipe) (l : List (List Nat)) :
    ∀ s : Server, ∃ s', drain_loop send_result l s = .finished s' ∧
      s'.sent = s.sent ++ l.flatMap (fun m =>
        (s.ws_connections.filter (fun conn => conn.2)).map
          (fun conn => (conn.1, create_websocket_frame m))) := by
  induction l with
  | nil => intro s; exact ⟨_, rfl, by simp⟩
  | cons message rest ih =>
    intro s
    obtain ⟨c', hc⟩ := broadcast_loop_sent (create_websocket_frame message) send_result hret
      s.ws_connections s.sent 0
    have hb : broadcast_message_immediate { s with pending_messages := rest } send_result
        message = .finished { s with
          pending_messages := rest
          sent := s.sent ++ (s.ws_connections.filter (fun conn => conn.2)).map
            (fun conn => (conn.1, create_websocket_frame message)) } := by
      simp [broadcast_message_immediate, hc]
    obtain ⟨s', hs', hsent⟩ := ih { s with
      pending_messages := rest
      sent := s.sent ++ (s.ws_connections.filter (fun conn => conn.2)).map
        (fun conn => (conn.1, create_websocket_frame message)) }
    refine ⟨s', ?_, ?_⟩
    · simp only [drain_loop, hb, hs']
    · rw [hsent]
      simp [List.flatMap_cons, List.append_assoc]

theorem sends_to_append (fd : Int) (a b : List (Int × List Nat)) :
    sends_to fd (a ++ b) = sends_to fd a ++ sends_to fd b := by
  simp [sends_to]

theorem sends_to_absent (fd : Int) (frame : List Nat) (m : List (Int × Bool))
    (h : fd ∉ m.map Prod.fst) :
    sends_to fd ((m.filter (fun conn => conn.2)).map (fun conn => (conn.1, frame))) = [] := by
  induction m with
  | nil => rfl
  | cons conn rest ih =>
    have h1 : conn.1 ≠ fd := fun e => h (by simp [e])
    have h2 : fd ∉ rest.map Prod.fst := fun e => h (by simp at e ⊢; exact Or.inr e)
    have ih2 := ih h2
    simp only [sends_to] at ih2 ⊢
    cases hv : conn.2 <;> simp [List.filter_cons, hv, h1, ih2]

theorem sends_to_broadcast (fd : Int) (frame : List Nat) (m : List (Int × Bool))
    (hnodup : (m.map Prod.fst).Nodup) :
    sends_to fd ((m.filter (fun conn => conn.2)).map (fun conn => (conn.1, frame))) =
      if m.lookup fd = some true then [frame] else [] := by
  induction m with
  | nil => rfl
  | cons conn rest ih =>
    obtain ⟨k, v⟩ := conn
    simp only [List.map_cons, List.nodup_cons] at hnodup
    by_cases hk : k = fd
    · subst hk
      have hrest := sends_to_absent k frame rest hnodup.1
      simp only [sends_to] at hrest ⊢
      cases v <;> simp [List.filter_cons, List.lookup, hrest]
    · have hb : (fd == k) = false := by simpa using fun h => hk h.symm
      have ih2 := ih hnodup.2
      simp only [sends_to] at ih2 ⊢
      cases v <;> simp [List.filter_cons, List.lookup, hb, hk, ih2]

theorem sends_to_drain (fd : Int) (m : List (Int × Bool)) (hnodup : (m.map Prod.fst).Nodup)
    (l : List (List Nat)) :
    sends_to fd (l.flatMap (fun msg =>
        (m.filter (fun conn => conn.2)).map (fun conn => (conn.1, create_websocket_frame msg)))) =
      if m.lookup fd = some true then l.map create_websocket_frame else [] := by
  induction l with
  | nil => simp [sends_to]
  | cons msg rest ih =>
    rw [List.flatMap_cons, sends_to_append, ih, sends_to_broadcast fd _ m hnodup]
    split_ifs <;> simp

theorem foldl_queue_message (ms : List (List Nat)) :
    ∀ s : Server, (ms.foldl queue_message s) =
      { s with pending_messages := s.pending_messages ++ ms } := by
  induction ms with
  | nil => intro s; simp
  | cons m rest ih =>
    intro s
    simp only [List.foldl_cons, ih]
    simp [queue_message]

theorem map_assign_keys (m : List (Int × Bool)) (k : Int) (v : Bool) (fd : Int) :
    fd ∈ (map_assign m k v).map Prod.fst ↔ fd ∈ m.map Prod.fst ∨ fd = k := by
  induction m with
  | nil => simp [map_assign]
  | cons conn rest ih =>
    obtain ⟨k', v'⟩ := conn
    by_cases hk : k' = k
    · subst hk
      simp only [map_assign, if_true, List.map_cons, List.mem_cons]
      tauto
    · simp only [map_assign, hk, if_false, List.map_cons, List.mem_cons, ih]
      tauto

theorem map_erase_keys (m : List (Int × Bool)) (k : Int) (fd : Int) :
    fd ∈ (map_erase m k).map Prod.fst ↔ fd ∈ m.map Prod.fst ∧ fd ≠ k := by
  unfold map_erase
  simp only [List.mem_map, List.mem_filter, decide_eq_true_eq]
  constructor
  · rintro ⟨conn, ⟨hmem, hne⟩, rfl⟩
    exact ⟨⟨conn, hmem, rfl⟩, hne⟩
  · rintro ⟨⟨conn, hmem, rfl⟩, hne⟩
    exact ⟨conn, ⟨hmem, hne⟩, rfl⟩

theorem lookup_of_mem_keys (m : List (Int × Bool)) (k : Int) (h : k ∈ m.map Prod.fst) :
    ∃ v, m.lookup k = some v := by
  induction m with
  | nil => simp at h
  | cons conn rest ih =>
    obtain ⟨k', v'⟩ := conn
    by_cases hk : k = k'
    · subst hk
      exact ⟨v', by simp [List.lookup]⟩
    · have hb : (k == k') = false := by simpa using hk
      have hrest : k ∈ rest.map Prod.fst := by
        simp only [List.map_cons, List.mem_cons] at h
        rcases h with h | h
        · exact absurd h hk
        · exact h
      obtain ⟨v, hv⟩ := ih hrest
      exact ⟨v, by simp [List.lookup, hb, hv]⟩

theorem mem_epoll_clients (s : Server) (fd : Int) :
    fd ∈ epoll_clients s ↔ fd ∈ s.epoll_set ∧ fd ≠ s.server_fd ∧ fd ≠ s.pipe_rd := by
  simp [epoll_clients]

theorem registry_matches_epoll_close (s : Server) (fd : Int) (hinv : registry_matches_epoll s) :
    registry_matches_epoll (close_connection s fd) := by
  intro x
  have h := hinv x
  rw [mem_epoll_clients] at h ⊢
  simp only [close_connection, map_erase_keys, List.mem_filter, decide_eq_true_eq]
  tauto

theorem registry_matches_epoll_new (s : Server) (a : Int) (n : Bool)
    (hinv : registry_matches_epoll s)
    (hen : (Event.new_connection a n true).enabled s) :
    registry_matches_epoll (handle_new_connection s a n true) := by
  unfold handle_new_connection
  simp only
  split_ifs with h1 h2
  · exact hinv
  · exact hinv
  · have hfresh : a ≠ s.server_fd ∧ a ≠ s.pipe_rd := by
      rcases hen with h | h
      · exact absurd h h1
      · exact ⟨h.2.1, h.2.2.1⟩
    intro x
    have h := hinv x
    rw [mem_epoll_clients] at h ⊢
    simp only [map_assign_keys, add_to_epoll, if_true]
    have hmem : x ∈ (if a ∈ s.epoll_set then s.epoll_set else s.epoll_set ++ [a]) ↔
        x ∈ s.epoll_set ∨ x = a := by
      split_ifs with hin
      · constructor
        · exact Or.inl
        · rintro (h' | rfl)
          · exact h'
          · exact hin
      · simp
    simp only [hmem]
    constructor
    · rintro ⟨hx | hx, h3, h4⟩
      · exact Or.inl (h.mp ⟨hx, h3, h4⟩)
      · exact Or.inr hx
    · rintro (hx | hx)
      · obtain ⟨h5, h6, h7⟩ := h.mpr hx
        exact ⟨Or.inl h5, h6, h7⟩
      · subst hx
        exact ⟨Or.inr rfl, hfresh.1, hfresh.2⟩

theorem registry_matches_epoll_client_data (s s' : Server) (fd : Int) (recv : RecvResult)
    (hinv : registry_matches_epoll s) (hen : (Event.client_data fd recv).enabled s)
    (hstep : handle_client_data s fd recv = some s') : registry_matches_epoll s' := by
  have hkey : fd ∈ s.ws_connections.map Prod.fst :=
    (hinv fd).mp ((mem_epoll_clients s fd).mpr hen)
  obtain ⟨v, hv⟩ := lookup_of_mem_keys _ _ hkey
  have hidx : map_index s.ws_connections fd = (s.ws_connections, v) := by
    unfold map_index; rw [hv]
  unfold handle_client_data at hstep
  simp only [hidx] at hstep
  by_cases hpos : recv.bytes_read ≤ 0
  · simp only [if_pos hpos, Option.some.injEq] at hstep
    subst hstep
    exact registry_matches_epoll_close s fd hinv
  · simp only [if_neg hpos] at hstep
    cases v with
    | false =>
      simp only [Bool.not_false, if_true] at hstep
      by_cases hk : extract_websocket_key recv.buffer ≠ []
      · simp only [if_pos hk, Option.some.injEq] at hstep
        subst hstep
        intro x
        have h := hinv x
        rw [mem_epoll_clients] at h ⊢
        simp only [send_websocket_handshake, map_assign_keys]
        constructor
        · intro hx; exact Or.inl (h.mp hx)
        · rintro (hx | rfl)
          · exact h.mpr hx
          · exact h.mpr hkey
      · simp only [if_neg hk, Option.some.injEq] at hstep
        subst hstep
        exact registry_matches_epoll_close s fd hinv
    | true =>
      simp only [Bool.not_true, Bool.false_eq_true, if_false] at hstep
      cases hd : decode_websocket_frame recv.buffer with
      | none => rw [hd] at hstep; simp at hstep
      | some message =>
        rw [hd] at hstep
        simp only [Option.map_some', Option.some.injEq] at hstep
        subst hstep
        split_ifs
        · exact hinv
        · exact hinv

theorem registry_matches_epoll_step (s s' : Server) (e : Event)
    (hinv : registry_matches_epoll s) (hok : e.epoll_add_ok) (hen : e.enabled s)
    (hstep : step s e = some s') : registry_matches_epoll s' := by
  cases e with
  | new_connection a n ok =>
    have hok2 : ok = true := hok
    subst hok2
    simp only [step, Option.some.injEq] at hstep
    subst hstep
    exact registry_matches_epoll_new s a n hinv hen
  | client_data fd recv =>
    exact registry_matches_epoll_client_data s s' fd recv hinv hen hstep
  | pending_messages send_result =>
    have hf := drain_loop_frame send_result s.pending_messages s s'
      (step_pending_messages s s' send_result hstep)
    intro x
    have h := hinv x
    rw [mem_epoll_clients] at h ⊢
    rw [hf.1, hf.2.1, hf.2.2.1, hf.2.2.2.1]
    exact h
  | close fd =>
    simp only [step, Option.some.injEq] at hstep
    subst hstep
    exact registry_matches_epoll_close s fd hinv
  | queue message =>
    simp only [step, Option.some.injEq] at hstep
    subst hstep
    exact hinv

theorem registry_matches_epoll_init (server_fd pipe_rd pipe_wr epoll_fd : Int) (ok1 ok2 : Bool) :
    registry_matches_epoll (WebSocketServer_new server_fd pipe_rd pipe_wr epoll_fd ok1 ok2) := by
  intro x
  rw [mem_epoll_clients]
  cases ok1 <;> cases ok2 <;>
    simp only [WebSocketServer_new, add_to_epoll, if_true, if_false, Bool.false_eq_true,
      List.map_nil, List.not_mem_nil, iff_false, false_and, not_false_eq_true,
      List.nil_append, List.mem_singleton, not_and, ite_false]
  · intro h1 _ h3; exact absurd h1 h3
  · intro h1 h2; exact absurd h1 h2
  · intro hmem h1 h2
    split_ifs at hmem <;> simp at hmem <;> omega

/-- Apart from a failing `epoll_ctl(EPOLL_CTL_ADD)`, registry and multiplexer agree in every
state the server reaches from a constructed one. -/
theorem registry_matches_epoll_when_add_succeeds
    (server_fd pipe_rd pipe_wr epoll_fd : Int) (ok1 ok2 : Bool) (s : Server)
    (h : Reachable Event.epoll_add_ok
      (WebSocketServer_new server_fd pipe_rd pipe_wr epoll_fd ok1 ok2) s) :
    registry_matches_epoll s := by
  induction h with
  | init => exact registry_matches_epoll_init server_fd pipe_rd pipe_wr epoll_fd ok1 ok2
  | step s s' e _ hok hen hstep ih => exact registry_matches_epoll_step s s' e ih hok hen hstep

/-! ## Frame codec: the claims -/

theorem xor_mask_getD (key : List Nat) (p : List Nat) :
    ∀ (j i : Nat), i < p.length →
      (xor_mask key j p).getD i 0 = p.getD i 0 ^^^ key.getD ((j + i) % 4) 0 := by
  induction p with
  | nil => intro j i hi; simp at hi
  | cons b bs ih =>
    intro j i hi
    cases i with
    | zero => simp [xor_mask]
    | succ i =>
      simp only [xor_mask, List.getD_cons_succ]
      rw [ih (j + 1) i (by simpa using hi)]
      congr 3
      omega

theorem decode_payload_need_more_data (data : List Nat) (masked : Bool)
    (payload_len header_len : Nat)
    (hno : (if masked then header_len + 4 else header_len) + payload_len < 2 ^ 64)
    (hshort : data.length < (if masked then header_len + 4 else header_len) + payload_len) :
    decode_payload data masked payload_len header_len = some [] := by
  unfold decode_payload
  simp only [Nat.mod_eq_of_lt hno]
  rw [if_pos hshort]

/-- C1. Round trip of the server-side codec: decoding the frame that
`create_websocket_frame` builds for a message `x` returns normally with exactly `x`,
for every message whose length fits in 64 bits. -/
theorem roundtrip_decode_create (x : List Nat) (h : x.length < 2 ^ 64) :
    decode_websocket_frame (create_websocket_frame x) = some x :=
  decode_create x h

theorem roundtrip_decode_create_witness :
    ([72, 105, 33] : List Nat).length < 2 ^ 64 ∧
      decode_websocket_frame (create_websocket_frame [72, 105, 33]) = some [72, 105, 33] :=
  ⟨by decide, roundtrip_decode_create [72, 105, 33] (by decide)⟩

/-- C2. Wire format of `create_websocket_frame`: for a message `m` of length `n` the frame
is the byte `0x81`, the length field, then exactly the bytes of `m`.  The length field is
the single byte `n` when `n < 126`; the byte 126 and two bytes below 256 whose big-endian
value is `n` when `126 ≤ n < 65536`; the byte 127 and eight bytes below 256 whose
big-endian value is `n` when `65536 ≤ n`.  The frame length is `n + 2`, `n + 4` or
`n + 10` respectively. -/
theorem create_websocket_frame_wire_format (m : List Nat) (h : m.length < 2 ^ 64) :
    (m.length < 126 →
      create_websocket_frame m = 0x81 :: m.length :: m ∧
      (create_websocket_frame m).length = m.length + 2) ∧
    (126 ≤ m.length → m.length < 65536 →
      ∃ b1 b0, create_websocket_frame m = 0x81 :: 126 :: b1 :: b0 :: m ∧
        b1 < 256 ∧ b0 < 256 ∧ b1 * 256 + b0 = m.length ∧
        (create_websocket_frame m).length = m.length + 4) ∧
    (65536 ≤ m.length →
      ∃ bs, create_websocket_frame m = 0x81 :: 127 :: (bs ++ m) ∧
        bs.length = 8 ∧ (∀ b ∈ bs, b < 256) ∧ fromBigEndian bs = m.length ∧
        (create_websocket_frame m).length = m.length + 10) := by
  have heq := create_websocket_frame_eq m h
  unfold length_field at heq
  refine ⟨?_, ?_, ?_⟩
  · intro h1
    rw [if_pos h1] at heq
    rw [heq]
    simp
  · intro h1 h2
    rw [if_neg (by omega), if_pos h2] at heq
    refine ⟨m.length / 256 % 256, m.length % 256, ?_, Nat.mod_lt _ (by norm_num),
      Nat.mod_lt _ (by norm_num), by omega, ?_⟩
    · rw [heq]; simp [bigEndian]
    · rw [heq]; simp [bigEndian]
  · intro h1
    rw [if_neg (by omega), if_neg (by omega)] at heq
    refine ⟨bigEndian 8 m.length, ?_, bigEndian_length _ _, bigEndian_lt _ _,
      fromBigEndian_bigEndian _ _ (by simpa using h), ?_⟩
    · rw [heq]; simp
    · rw [heq]; simp [bigEndian_length]; omega

theorem create_websocket_frame_wire_format_witness :
    ([72, 105] : List Nat).length < 2 ^ 64 ∧
      create_websocket_frame [72, 105] = [0x81, 2, 72, 105] ∧
      (create_websocket_frame [72, 105]).length = 4 :=
  ⟨by decide, (create_websocket_frame_wire_format [72, 105] (by decide)).1 (by decide)⟩

/-- C3, evaluated at two buffers the server can receive.  The 14-byte buffer has the mask
bit set and declares the payload length `2 ^ 64 - 1` in the 8-byte form: the 64-bit sum
`header_len + payload_len` wraps to 13, the size check passes, and the unmasking loop reads
`data[14]`, outside the buffer.  The 10-byte buffer declares the same length without the
mask bit: the sum wraps to 9, the check passes, and `payload.assign` is given a range that
is not a valid range of the buffer (its end lies before its start).  Neither call returns
the empty result. -/
theorem decode_truncated_length_overflow :
    decode_websocket_frame
        [0x81, 0xFF, 0xFF, 0xFF, 0xFF, 0xFF, 0xFF, 0xFF, 0xFF, 0xFF, 1, 2, 3, 4] = none ∧
      decode_websocket_frame
        [0x81, 0x7F, 0xFF, 0xFF, 0xFF, 0xFF, 0xFF, 0xFF, 0xFF, 0xFF] = none := by
  constructor <;> decide

/-- C4. Masked client-to-server frames are unmasked correctly: for a 4-byte key and a
payload `p` of bytes, the complete frame `0x81`, masked length field, key, `p` XOR key
(a buffer whose size fits `size_t`) decodes to exactly `p`, and byte `i` of the result is
`data[header_len + i] XOR key[i mod 4]`, where `header_len` is the frame length minus
the payload length. -/
theorem decode_masked_client_frame (key p : List Nat) (hkey : key.length = 4)
    (hp : ∀ b ∈ p, b < 256) (hlen : (client_frame key p).length < 2 ^ 64) :
    decode_websocket_frame (client_frame key p) = some p ∧
      ∀ i, i < p.length →
        p.getD i 0 =
          (client_frame key p).getD ((client_frame key p).length - p.length + i) 0 ^^^
            key.getD (i % 4) 0 := by
  constructor
  · match key, hkey with
    | [k0, k1, k2, k3], _ => exact decode_client_frame k0 k1 k2 k3 p hlen hp
  · intro i hi
    have hsplit : client_frame key p =
        (0x81 :: (masked_length_field p.length ++ key)) ++ xor_mask key 0 p := by
      simp [client_frame]
    have hl : (client_frame key p).length - p.length =
        (0x81 :: (masked_length_field p.length ++ key)).length := by
      rw [hsplit, List.length_append, xor_mask_length]; omega
    rw [hl]
    conv_rhs => rw [hsplit]
    rw [List.getD_append_right _ _ _ _ (by omega), Nat.add_sub_cancel_left,
      xor_mask_getD key p 0 i hi, Nat.zero_add, Nat.xor_cancel_right]

theorem decode_masked_client_frame_witness :
    ([1, 2, 3, 4] : List Nat).length = 4 ∧ (∀ b ∈ ([72, 105, 33, 10, 200] : List Nat), b < 256) ∧
      (client_frame [1, 2, 3, 4] [72, 105, 33, 10, 200]).length < 2 ^ 64 ∧
      decode_websocket_frame (client_frame [1, 2, 3, 4] [72, 105, 33, 10, 200]) =
        some [72, 105, 33, 10, 200] :=
  ⟨by decide, by decide, by decide,
    (decode_masked_client_frame [1, 2, 3, 4] [72, 105, 33, 10, 200] (by decide) (by decide)
      (by decide)).1⟩

/-- C7, refuted as stated: a complete binary frame (opcode `0x2`) and a complete text frame
with the FIN bit clear, each carrying the one-byte payload `0x41`, decode to that payload
and not to the empty result. -/
theorem decode_accepts_other_opcodes :
    (0x82 &&& 0x0F ≠ 0x1 ∧ decode_websocket_frame [0x82, 0x01, 0x41] = some [0x41]) ∧
      (0x01 &&& 0x80 = 0 ∧ decode_websocket_frame [0x01, 0x01, 0x41] = some [0x41]) := by
  decide

theorem length_field_lengths (n : Nat) :
    (length_field n).length = (masked_length_field n).length := by
  unfold length_field masked_length_field
  split_ifs <;> simp [bigEndian_length]

/-- C7, amended: `decode_websocket_frame` reads FIN and the opcode and never tests them.
Behind any first byte `d0` (any opcode, FIN set or clear) a complete masked frame and a
complete unmasked frame with payload `p` decode to exactly `p`, as they do behind `0x81`;
and for every buffer whose size fits `size_t` the result is unchanged when the first byte
is replaced by any other value. -/
theorem decode_ignores_fin_and_opcode (d0 : Nat) (key p : List Nat) (hkey : key.length = 4)
    (hp : ∀ b ∈ p, b < 256) (hlen : (client_frame key p).length < 2 ^ 64) :
    decode_websocket_frame (d0 :: (masked_length_field p.length ++ key ++ xor_mask key 0 p)) =
        some p ∧
      decode_websocket_frame (d0 :: (length_field p.length ++ p)) = some p ∧
      ∀ (d0' : Nat) (rest : List Nat), (d0 :: rest).length < 2 ^ 64 →
        decode_websocket_frame (d0 :: rest) = decode_websocket_frame (d0' :: rest) := by
  have hlen2 : (masked_length_field p.length ++ key ++ xor_mask key 0 p).length + 1 < 2 ^ 64 := by
    simpa [client_frame] using hlen
  have hplen : p.length < 2 ^ 64 := by
    simp only [List.length_append, xor_mask_length] at hlen2
    omega
  have hlen3 : (length_field p.length ++ p).length + 1 < 2 ^ 64 := by
    simp only [List.length_append, xor_mask_length, length_field_lengths] at hlen2 ⊢
    omega
  refine ⟨?_, ?_, ?_⟩
  · rw [decode_first_byte d0 0x81 _ hlen2]
    match key, hkey with
    | [k0, k1, k2, k3], _ => exact decode_client_frame k0 k1 k2 k3 p hlen hp
  · rw [decode_first_byte d0 0x81 _ hlen3, ← create_websocket_frame_eq p hplen]
    exact decode_create p hplen
  · intro d0' rest hrest
    exact decode_first_byte d0 d0' rest (by simpa using hrest)

theorem decode_ignores_fin_and_opcode_witness :
    ([1, 2, 3, 4] : List Nat).length = 4 ∧ (∀ b ∈ ([3, 232, 66] : List Nat), b < 256) ∧
      (client_frame [1, 2, 3, 4] [3, 232, 66]).length < 2 ^ 64 ∧
      decode_websocket_frame
          (0x88 :: (masked_length_field 3 ++ [1, 2, 3, 4] ++ xor_mask [1, 2, 3, 4] 0 [3, 232, 66])) =
        some [3, 232, 66] ∧
      decode_websocket_frame (0x02 :: (length_field 3 ++ [3, 232, 66])) = some [3, 232, 66] :=
  ⟨by decide, by decide, by decide,
    (decode_ignores_fin_and_opcode 0x88 [1, 2, 3, 4] [3, 232, 66] (by decide) (by decide)
      (by decide)).1,
    (decode_ignores_fin_and_opcode 0x02 [1, 2, 3, 4] [3, 232, 66] (by decide) (by decide)
      (by decide)).2.1⟩

theorem takeWhile_lf (l rest : List Nat) (h : 10 ∉ l) :
    (l ++ 10 :: rest).takeWhile (· ≠ 10) = l := by
  induction l with
  | nil => simp
  | cons x t ih =>
    have hx : x ≠ 10 := fun e => h (by simp [e])
    have ht : 10 ∉ t := fun e => h (List.mem_cons_of_mem _ e)
    simpa [List.takeWhile_cons, hx] using ih ht

theorem dropWhile_lf (l rest : List Nat) (h : 10 ∉ l) :
    (l ++ 10 :: rest).dropWhile (· ≠ 10) = 10 :: rest := by
  induction l with
  | nil => simp
  | cons x t ih =>
    have hx : x ≠ 10 := fun e => h (by simp [e])
    have ht : 10 ∉ t := fun e => h (List.mem_cons_of_mem _ e)
    simpa [List.dropWhile_cons, hx] using ih ht

theorem extract_key_spec_line (l rest : List Nat) (h : 10 ∉ l) :
    extract_key_spec (l ++ 10 :: rest) =
      if (str "Sec-WebSocket-Key:").isPrefixOf l = true then trim_spec (after_first_colon l)
      else extract_key_spec rest := by
  unfold extract_key_spec
  rw [splitOn_lf (l ++ 10 :: rest), takeWhile_lf l rest h, dropWhile_lf l rest h]
  simp only [List.find?_cons]
  by_cases hp : (str "Sec-WebSocket-Key:").isPrefixOf l = true
  · rw [hp, if_pos rfl]
  · have hf : (str "Sec-WebSocket-Key:").isPrefixOf l = false := by
      exact (Bool.not_eq_true _).mp hp
    rw [hf]
    simp

theorem header_prefix_cr (l : List Nat) :
    (str "Sec-WebSocket-Key:").isPrefixOf (l ++ [13]) = (str "Sec-WebSocket-Key:").isPrefixOf l := by
  rw [Bool.eq_iff_iff, List.isPrefixOf_iff_prefix, List.isPrefixOf_iff_prefix]
  constructor
  · intro hp
    by_cases hle : (str "Sec-WebSocket-Key:").length ≤ l.length
    · exact List.prefix_of_prefix_length_le hp (List.prefix_append l [13]) hle
    · exfalso
      have hlen := hp.length_le
      simp only [List.length_append, List.length_singleton] at hlen
      have heq : str "Sec-WebSocket-Key:" = l ++ [13] :=
        hp.eq_of_length (by simp; omega)
      have h1 : (str "Sec-WebSocket-Key:").getLast? = some 58 := by decide
      rw [heq] at h1
      simp at h1
  · intro hp
    exact hp.trans (List.prefix_append l [13])

theorem trim_spec_cr (s : List Nat) : trim_spec (s ++ [13]) = trim_spec s := by
  unfold trim_spec
  by_cases hall : ∀ x ∈ s, x ∈ [32, 9, 13, 10]
  · have h1 : s.dropWhile (· ∈ [32, 9, 13, 10]) = [] := by
      rw [List.dropWhile_eq_nil_iff]; simpa using hall
    have h2 : (s ++ [13]).dropWhile (· ∈ [32, 9, 13, 10]) = [] := by
      rw [List.dropWhile_eq_nil_iff]
      intro x hx
      rcases List.mem_append.mp hx with h | h
      · simpa using hall x h
      · simp at h; simp [h]
    rw [h1, h2]
  · have hne : s.dropWhile (· ∈ [32, 9, 13, 10]) ≠ [] := by
      intro h0
      rw [List.dropWhile_eq_nil_iff] at h0
      exact hall (by simpa using h0)
    rw [List.dropWhile_append, if_neg (by simpa using hne),
      List.rdropWhile_concat_pos _ _ _ (by decide)]

theorem after_first_colon_cr (l : List Nat) (h : 58 ∈ l) :
    after_first_colon (l ++ [13]) = after_first_colon l ++ [13] := by
  unfold after_first_colon
  have hne : l.dropWhile (· ≠ 58) ≠ [] := by
    intro h0
    rw [List.dropWhile_eq_nil_iff] at h0
    have := h0 58 h
    simp at this
  rw [List.dropWhile_append, if_neg (by simpa using hne)]
  cases hd : l.dropWhile (· ≠ 58) with
  | nil => exact absurd hd hne
  | cons a t => simp

theorem extract_key_spec_crlf (ls : List (List Nat)) (hls : ∀ l ∈ ls, 10 ∉ l) :
    extract_key_spec (ls.flatMap (· ++ [13, 10])) = extract_key_spec (ls.flatMap (· ++ [10])) := by
  induction ls with
  | nil => rfl
  | cons l ls ih =>
    have hl : 10 ∉ l := hls l (List.mem_cons_self _ _)
    have hl13 : 10 ∉ l ++ [13] := by simp [hl]
    have ih2 := ih (fun x hx => hls x (List.mem_cons_of_mem _ hx))
    have e1 : (l :: ls).flatMap (· ++ [13, 10]) = (l ++ [13]) ++ 10 :: ls.flatMap (· ++ [13, 10]) := by
      simp [List.flatMap_cons]
    have e2 : (l :: ls).flatMap (· ++ [10]) = l ++ 10 :: ls.flatMap (· ++ [10]) := by
      simp [List.flatMap_cons]
    rw [e1, e2, extract_key_spec_line _ _ hl13, extract_key_spec_line _ _ hl, header_prefix_cr, ih2]
    by_cases hp : (str "Sec-WebSocket-Key:").isPrefixOf l = true
    · rw [if_pos hp, if_pos hp, after_first_colon_cr l (header_mem_colon l hp), trim_spec_cr]
    · rw [if_neg hp, if_neg hp]

/-- C6. `extract_websocket_key` finds the header wherever it stands.  With the request split
into lines at LF: when no line begins with `Sec-WebSocket-Key:` the result is empty; when
`line` is the first line that does, whatever lines come before and after it, the result is
the text after the first colon of `line` with leading and trailing space, tab, CR and LF
removed; and a request whose lines end in CRLF gives the same result as the same lines
ending in LF. -/
theorem extract_websocket_key_finds_header (request : List Nat) (ls : List (List Nat))
    (hls : ∀ l ∈ ls, 10 ∉ l) :
    ((∀ l ∈ request.splitOn 10, ¬ str "Sec-WebSocket-Key:" <+: l) →
      extract_websocket_key request = []) ∧
    (∀ pre line post, request.splitOn 10 = pre ++ line :: post →
      (∀ l ∈ pre, ¬ str "Sec-WebSocket-Key:" <+: l) → str "Sec-WebSocket-Key:" <+: line →
      extract_websocket_key request = trim_spec (after_first_colon line)) ∧
    extract_websocket_key (ls.flatMap (· ++ [13, 10])) =
      extract_websocket_key (ls.flatMap (· ++ [10])) := by
  refine ⟨?_, ?_, ?_⟩
  · intro hnone
    rw [extract_eq_spec, extract_key_spec]
    have hf : (request.splitOn 10).find? (fun l => (str "Sec-WebSocket-Key:").isPrefixOf l)
        = none := by
      rw [List.find?_eq_none]
      intro l hl
      simpa [List.isPrefixOf_iff_prefix] using hnone l hl
    rw [hf]
  · intro pre line post hsplit hpre hline
    rw [extract_eq_spec, extract_key_spec, hsplit]
    have hf : (pre ++ line :: post).find? (fun l => (str "Sec-WebSocket-Key:").isPrefixOf l)
        = some line := by
      rw [List.find?_append]
      have h1 : pre.find? (fun l => (str "Sec-WebSocket-Key:").isPrefixOf l) = none := by
        rw [List.find?_eq_none]
        intro l hl
        simpa [List.isPrefixOf_iff_prefix] using hpre l hl
      rw [h1]
      simp [List.find?_cons, List.isPrefixOf_iff_prefix.mpr hline]
    rw [hf]
  · rw [extract_eq_spec, extract_eq_spec]
    exact extract_key_spec_crlf ls hls

theorem extract_websocket_key_finds_header_witness :
    (∀ l ∈ [str "GET / HTTP/1.1", str "Sec-WebSocket-Key: abc", str ""], 10 ∉ l) ∧
      ((str "Host: x\r\nSec-WebSocket-Key: dGhl==\r\nUpgrade: websocket\r\n").splitOn 10 =
          [str "Host: x\r"] ++ str "Sec-WebSocket-Key: dGhl==\r" :: [str "Upgrade: websocket\r", []] ∧
        (∀ l ∈ [str "Host: x\r"], ¬ str "Sec-WebSocket-Key:" <+: l) ∧
        str "Sec-WebSocket-Key:" <+: str "Sec-WebSocket-Key: dGhl==\r" ∧
        extract_websocket_key (str "Host: x\r\nSec-WebSocket-Key: dGhl==\r\nUpgrade: websocket\r\n") =
          trim_spec (after_first_colon (str "Sec-WebSocket-Key: dGhl==\r"))) :=
  ⟨by decide, by decide, by decide, by decide,
    (extract_websocket_key_finds_header
      (str "Host: x\r\nSec-WebSocket-Key: dGhl==\r\nUpgrade: websocket\r\n")
      [str "GET / HTTP/1.1", str "Sec-WebSocket-Key: abc", str ""] (by decide)).2.1
      [str "Host: x\r"] (str "Sec-WebSocket-Key: dGhl==\r") [str "Upgrade: websocket\r", []]
      (by decide) (by decide) (by decide)⟩

/-! ## Handshake processor: the accept key -/

theorem SHA1_length (d : List Nat) (n : Nat) : (SHA1 d n).length = 20 := by
  simp [SHA1, word_bytes]

theorem base64_char_ne_newline (n : Nat) : base64_char n ≠ 10 ∧ base64_char n ≠ 13 := by
  unfold base64_char
  by_cases h : n < 64
  · have hall : ∀ m, m < 64 → base64_alphabet.getD m 0 ≠ 10 ∧ base64_alphabet.getD m 0 ≠ 13 := by
      decide
    exact hall n h
  · have hlen : base64_alphabet.length = 64 := by decide
    rw [List.getD_eq_default _ _ (by omega)]
    decide

theorem base64_no_newline (l : List Nat) : 10 ∉ base64 l ∧ 13 ∉ base64 l := by
  induction l using base64.induct with
  | case1 a b c rest ih =>
    have h1 := base64_char_ne_newline (a >>> 2)
    have h2 := base64_char_ne_newline (((a &&& 3) <<< 4) ||| (b >>> 4))
    have h3 := base64_char_ne_newline (((b &&& 15) <<< 2) ||| (c >>> 6))
    have h4 := base64_char_ne_newline (c &&& 63)
    simp only [base64, List.mem_append, List.mem_cons, List.mem_singleton, List.not_mem_nil,
      or_false, not_or]
    exact ⟨⟨⟨h1.1.symm, h2.1.symm, h3.1.symm, h4.1.symm⟩, ih.1⟩,
      ⟨⟨h1.2.symm, h2.2.symm, h3.2.symm, h4.2.symm⟩, ih.2⟩⟩
  | case2 a b =>
    have h1 := base64_char_ne_newline (a >>> 2)
    have h2 := base64_char_ne_newline (((a &&& 3) <<< 4) ||| (b >>> 4))
    have h3 := base64_char_ne_newline ((b &&& 15) <<< 2)
    simp only [base64, List.mem_cons, List.mem_singleton, List.not_mem_nil, or_false, not_or]
    exact ⟨⟨h1.1.symm, h2.1.symm, h3.1.symm, by decide⟩,
      ⟨h1.2.symm, h2.2.symm, h3.2.symm, by decide⟩⟩
  | case3 a =>
    have h1 := base64_char_ne_newline (a >>> 2)
    have h2 := base64_char_ne_newline ((a &&& 3) <<< 4)
    simp only [base64, List.mem_cons, List.mem_singleton, List.not_mem_nil, or_false, not_or]
    exact ⟨⟨h1.1.symm, h2.1.symm, by decide, by decide⟩,
      ⟨h1.2.symm, h2.2.symm, by decide, by decide⟩⟩
  | case4 => simp [base64]

theorem base64_length_20 (l : List Nat) (h : l.length = 20) : (base64 l).length = 28 := by
  match l, h with
  | [_, _, _, _, _, _, _, _, _, _, _, _, _, _, _, _, _, _, _, _], _ => simp [base64]

/-- C5. `generate_accept_key key` is the padded base64 encoding, without line break, of the
20-byte SHA-1 digest of the bytes of `key` followed by the GUID
`258EAFA5-E914-47DA-95CA-C5AB0DC85B11`; it always has 28 characters, none of them CR or
LF; and the key `dGhlIHNhbXBsZSBub25jZQ==` of RFC 6455 gives
`s3pPLMBiTxaQ9kYGzzhZRbK+xOo=`. -/
theorem generate_accept_key_rfc6455 :
    (∀ key : List Nat,
      generate_accept_key key =
          base64 (SHA1 (key ++ str "258EAFA5-E914-47DA-95CA-C5AB0DC85B11")
            (key ++ str "258EAFA5-E914-47DA-95CA-C5AB0DC85B11").length) ∧
        (SHA1 (key ++ str "258EAFA5-E914-47DA-95CA-C5AB0DC85B11")
            (key ++ str "258EAFA5-E914-47DA-95CA-C5AB0DC85B11").length).length = 20 ∧
        (generate_accept_key key).length = 28 ∧
        10 ∉ generate_accept_key key ∧ 13 ∉ generate_accept_key key) ∧
      generate_accept_key (str "dGhlIHNhbXBsZSBub25jZQ==") = str "s3pPLMBiTxaQ9kYGzzhZRbK+xOo=" := by
  refine ⟨fun key => ?_, by decide!⟩
  have hlen := SHA1_length (key ++ WS_MAGIC_STRING) (key ++ WS_MAGIC_STRING).length
  have heq : generate_accept_key key =
      base64 (SHA1 (key ++ WS_MAGIC_STRING) (key ++ WS_MAGIC_STRING).length) := by
    unfold generate_accept_key base64_encode SHA_DIGEST_LENGTH
    simp only []
    rw [List.take_of_length_le (by omega)]
  refine ⟨heq, hlen, ?_, ?_, ?_⟩
  · rw [heq]; exact base64_length_20 _ hlen
  · rw [heq]; exact (base64_no_newline _).1
  · rw [heq]; exact (base64_no_newline _).2

/-! ## Registry and event loop: the claims -/

/-- When every `send` returns (with whatever value), draining the inbox broadcasts in
submission order to every complete connection.  For a registry with distinct keys, texts
`ms` queued on an empty queue, and return values `send_result` of the individual sends,
`handle_pending_messages` runs to its end; it adds to the log of sends, for each connection
whose handshake is complete, exactly the frames `create_websocket_frame m` of the texts in
their order, adds no send for any other descriptor, and leaves the queue empty. -/
theorem drain_in_order_when_every_send_returns (s : Server) (ms : List (List Nat))
    (send_result : Nat → SendResult) (hret : ∀ n, send_result n ≠ .sigpipe)
    (hq : s.pending_messages = []) (hnodup : (s.ws_connections.map Prod.fst).Nodup) :
    ∃ s' attempts,
      handle_pending_messages (ms.foldl queue_message s) send_result = .finished s' ∧
        s'.sent = s.sent ++ attempts ∧
        (∀ fd, s.ws_connections.lookup fd = some true →
          sends_to fd attempts = ms.map create_websocket_frame) ∧
        (∀ fd, s.ws_connections.lookup fd ≠ some true → sends_to fd attempts = []) ∧
        s'.pending_messages = [] ∧ s'.ws_connections = s.ws_connections := by
  obtain ⟨s', hs', hsent⟩ := drain_loop_sent send_result hret (s.pending_messages ++ ms)
    { s with pending_messages := s.pending_messages ++ ms }
  have hh : handle_pending_messages (ms.foldl queue_message s) send_result = .finished s' := by
    rw [foldl_queue_message]
    exact hs'
  have hf := drain_loop_frame send_result _ _ s' hs'
  refine ⟨s', ms.flatMap (fun m =>
    (s.ws_connections.filter (fun conn => conn.2)).map
      (fun conn => (conn.1, create_websocket_frame m))), hh, ?_, ?_, ?_, hf.2.2.2.2, hf.1⟩
  · rw [hsent, hq]
    simp
  · intro fd hfd
    rw [sends_to_drain fd _ hnodup, if_pos hfd]
  · intro fd hfd
    rw [sends_to_drain fd _ hnodup, if_neg hfd]

/-- C9, evaluated at a run the server can have.  The registry holds the complete
connections 8 and 7, in that iteration order, and the texts `one`, `two`, `three` are
queued.  The peer of 8 has reset its connection: the first `send` to 8 still returns, the
second raises SIGPIPE.  The process ends inside the third call of `send`: connection 7 has
been sent the frame of `one` only, and `three` is still in the queue. -/
theorem drain_killed_by_sigpipe :
    handle_pending_messages
        { server_fd := 3, pipe_rd := 4, pipe_wr := 5, epoll_fd := 6,
          ws_connections := [(8, true), (7, true)], epoll_set := [3, 4, 8, 7],
          pending_messages := [str "one", str "two", str "three"], sent := [] }
        (fun n => if n = 2 then .sigpipe else .returned 5) =
      .killed
        { server_fd := 3, pipe_rd := 4, pipe_wr := 5, epoll_fd := 6,
          ws_connections := [(8, true), (7, true)], epoll_set := [3, 4, 8, 7],
          pending_messages := [str "three"],
          sent := [(8, create_websocket_frame (str "one")),
            (7, create_websocket_frame (str "one")),
            (8, create_websocket_frame (str "two"))] } ∧
      sends_to 7 [(8, create_websocket_frame (str "one")),
          (7, create_websocket_frame (str "one")),
          (8, create_websocket_frame (str "two"))] = [create_websocket_frame (str "one")] := by
  decide

/-- C10, evaluated at a run the server can have.  On the constructed server `accept` returns
the new descriptor 7, `set_non_blocking` succeeds and `epoll_ctl(EPOLL_CTL_ADD)` fails:
`add_to_epoll` only prints the error and `handle_new_connection` goes on to enter 7 in
`ws_connections`.  The reached state has the key 7 in the registry and no client
descriptor in the epoll interest list, so registry and multiplexer disagree. -/
theorem registry_epoll_disagree_after_failed_add :
    Reachable (fun _ => True) (WebSocketServer_new 3 4 5 6 true true)
        (handle_new_connection (WebSocketServer_new 3 4 5 6 true true) 7 true false) ∧
      (handle_new_connection (WebSocketServer_new 3 4 5 6 true true) 7 true
        false).ws_connections.map Prod.fst = [7] ∧
      epoll_clients
        (handle_new_connection (WebSocketServer_new 3 4 5 6 true true) 7 true false) = [] ∧
      ¬ registry_matches_epoll
        (handle_new_connection (WebSocketServer_new 3 4 5 6 true true) 7 true false) := by
  refine ⟨?_, by decide, by decide, ?_⟩
  · refine Reachable.step _ _ (.new_connection 7 true false) Reachable.init trivial ?_ rfl
    right
    decide
  · intro h
    have h7 := (h 7).mpr (by decide)
    revert h7
    decide

end WebSocketServer
